import Mathlib

/-!
Verification development for the tripn repository: a shallow embedding of the
Turtle reader (reader source file) and the triple value type (tripn.go) into
Lean, together with theorems settling the specification claims.

Go strings and byte slices are modelled as `List Nat` (byte values); Go maps
as association lists; the streaming `bufio.Reader` as the list of not yet
consumed input bytes plus a buffer capacity.  Loops of the source that are
not structurally decreasing are given explicit fuel; running out of fuel is
its own outcome, so genuine divergence of the source is provable as
"out of fuel for every fuel value".  Go panics are modelled as a dedicated
outcome constructor carrying the panic message.
-/

namespace Tripn

/-- Byte strings: Go `string` / `[]byte` values as lists of byte values. -/
abbrev Bytes := List Nat

/-- Bytes of an ASCII string literal (all our literals are ASCII). -/
def bs (s : String) : Bytes := s.data.map Char.toNat

/-- Whitespace bytes, the `case ' ', '\t', '\r', '\n'` dispatch of the source. -/
def isWS (c : Nat) : Bool := c = 32 || c = 9 || c = 13 || c = 10

/-- Decimal digit byte. -/
def isDigit (c : Nat) : Bool := 48 ≤ c && c ≤ 57

/-- ASCII letter byte. -/
def isAlpha (c : Nat) : Bool := (65 ≤ c && c ≤ 90) || (97 ≤ c && c ≤ 122)

/-- Triple contains an RDF statement (struct Triple of tripn.go). -/
structure Triple where
  SubjectIRI : Bytes
  PredicateIRI : Bytes
  Object : Bytes
  DatatypeIRI : Bytes
  LangTag : Bytes
deriving DecidableEq, Repr

/-- XSDString links the XML Schema Definition of the primitive type. -/
def XSDString : Bytes := bs "http://www.w3.org/2001/XMLSchema#string"

/-- XSDBoolean links the XML Schema Definition of the primitive type. -/
def XSDBoolean : Bytes := bs "http://www.w3.org/2001/XMLSchema#boolean"

/-- XSDDecimal links the XML Schema Definition of the primitive type. -/
def XSDDecimal : Bytes := bs "http://www.w3.org/2001/XMLSchema#decimal"

/-- XSDInteger links the XML Schema Definition of the derived type. -/
def XSDInteger : Bytes := bs "http://www.w3.org/2001/XMLSchema#integer"

/-- XSDDouble links the XML Schema Definition of the primitive type. -/
def XSDDouble : Bytes := bs "http://www.w3.org/2001/XMLSchema#double"

/-- The rdf:langString datatype IRI fixed by language tags. -/
def rdfLangString : Bytes := bs "http://www.w3.org/1999/02/22-rdf-syntax-ns#langString"

/-- The rdf:type IRI produced for the bare keyword a. -/
def rdfType : Bytes := bs "http://www.w3.org/1999/02/22-rdf-syntax-ns#type"

/-- Typed accessor errors of tripn.go: either the wrong-datatype sentinel
(errXSDString, errXSDBoolean, ...) or its illegal-syntax wrap. -/
inductive AccErr where
  | notOfDatatype : AccErr
  | illegalForm : AccErr
deriving DecidableEq, Repr

instance {ε α : Type} [DecidableEq ε] [DecidableEq α] : DecidableEq (Except ε α) := fun x y =>
  match x, y with
  | .ok a, .ok b => if h : a = b then .isTrue (by rw [h]) else .isFalse (by simp [h])
  | .error a, .error b => if h : a = b then .isTrue (by rw [h]) else .isFalse (by simp [h])
  | .ok _, .error _ => .isFalse (by simp)
  | .error _, .ok _ => .isFalse (by simp)

/-- Method XSDString of tripn.go, verbatim: on a matching datatype IRI it
returns the empty string (not t.Object) and no error. -/
def Triple.xsdString (t : Triple) : Except AccErr Bytes :=
  if t.DatatypeIRI ≠ XSDString then .error .notOfDatatype
  else .ok []

/-- Method XSDBoolean of tripn.go. -/
def Triple.xsdBoolean (t : Triple) : Except AccErr Bool :=
  if t.DatatypeIRI ≠ XSDBoolean then .error .notOfDatatype
  else if t.Object = bs "false" || t.Object = bs "0" then .ok false
  else if t.Object = bs "true" || t.Object = bs "1" then .ok true
  else .error .illegalForm

/-- Modelled from the spec: Go strconv.Quote as used by fmt %q (library code
external to this repository).  Faithful on bytes below 0x80: quote and
backslash get a backslash escape, other printable ASCII passes unchanged,
the named control escapes are emitted, remaining low bytes become hex
escapes.  Bytes at or above 0x80 are passed through, which agrees with
strconv for printable multi-byte runes; the round-trip claim is settled on
ASCII content only. -/
def quoteEsc (c : Nat) : Bytes :=
  if c = 34 then [92, 34]            -- double quote
  else if c = 92 then [92, 92]       -- backslash
  else if 32 ≤ c && c < 127 then [c]
  else if c = 7 then [92, 97]        -- bell
  else if c = 8 then [92, 98]        -- backspace
  else if c = 9 then [92, 116]       -- tab
  else if c = 10 then [92, 110]      -- newline
  else if c = 11 then [92, 118]      -- vertical tab
  else if c = 12 then [92, 102]      -- form feed
  else if c = 13 then [92, 114]      -- carriage return
  else if c < 128 then
    let hexDigit : Nat → Nat := fun n => if n < 10 then 48 + n else 87 + n
    [92, 120, hexDigit (c / 16), hexDigit (c % 16)]
  else [c]

/-- Go %q of a byte string (see quoteEsc). -/
def goQuote (s : Bytes) : Bytes := 34 :: (s.flatMap quoteEsc) ++ [34]

/-- Method String of tripn.go: an N-Triples line excluding the new-line
character. -/
def Triple.render (t : Triple) : Bytes :=
  if t.DatatypeIRI = [] then
    bs "<" ++ t.SubjectIRI ++ bs "> <" ++ t.PredicateIRI ++ bs "> <" ++ t.Object ++ bs "> ."
  else if t.LangTag = [] then
    bs "<" ++ t.SubjectIRI ++ bs "> <" ++ t.PredicateIRI ++ bs "> " ++
      goQuote t.Object ++ bs "^^<" ++ t.DatatypeIRI ++ bs "> ."
  else
    bs "<" ++ t.SubjectIRI ++ bs "> <" ++ t.PredicateIRI ++ bs "> " ++
      goQuote t.Object ++ bs "@" ++ t.LangTag ++ bs " ."

/-- Const skolemIRIRoot of the reader: the reserved namespace path. -/
def skolemIRIRoot : Bytes := bs "web+skolem://quies.net/"

/-- Func IsSkolemIRI of the reader, verbatim: strings.HasPrefix with the
constant as first argument, so it tests whether s is a PREFIX of the
reserved namespace rather than the reverse. -/
def IsSkolemIRI (s : Bytes) : Bool := s.isPrefixOf skolemIRIRoot

/-- UTF-8 continuation byte. -/
def utf8Cont (c : Nat) : Bool := 128 ≤ c && c ≤ 191

/-- Modelled from the spec: Go unicode/utf8.Valid (library code external to
this repository), the standard UTF-8 acceptance automaton with overlong and
surrogate rejection. -/
def utf8Valid : Bytes → Bool
  | [] => true
  | c :: cs =>
    if c < 128 then utf8Valid cs else
    match cs with
    | [] => false
    | c1 :: cs1 =>
      if 194 ≤ c && c ≤ 223 then utf8Cont c1 && utf8Valid cs1 else
      match cs1 with
      | [] => false
      | c2 :: cs2 =>
        if c = 224 then (160 ≤ c1 && c1 ≤ 191) && utf8Cont c2 && utf8Valid cs2 else
        if (225 ≤ c && c ≤ 236) || c = 238 || c = 239 then
          utf8Cont c1 && utf8Cont c2 && utf8Valid cs2 else
        if c = 237 then (128 ≤ c1 && c1 ≤ 159) && utf8Cont c2 && utf8Valid cs2 else
        match cs2 with
        | [] => false
        | c3 :: cs3 =>
          if c = 240 then (144 ≤ c1 && c1 ≤ 191) && utf8Cont c2 && utf8Cont c3 && utf8Valid cs3 else
          if 241 ≤ c && c ≤ 243 then utf8Cont c1 && utf8Cont c2 && utf8Cont c3 && utf8Valid cs3 else
          if c = 244 then (128 ≤ c1 && c1 ≤ 143) && utf8Cont c2 && utf8Cont c3 && utf8Valid cs3 else
          false

/-- Modelled from the spec: strings.Builder WriteRune (external library):
UTF-8 encoding with U+FFFD replacement for invalid code points. -/
def encodeRune (r : Int) : Bytes :=
  if r < 0 || r > 0x10FFFF || (0xD800 ≤ r && r ≤ 0xDFFF) then [239, 191, 189]
  else
    let u := r.toNat
    if u < 0x80 then [u]
    else if u < 0x800 then [192 + u / 64, 128 + u % 64]
    else if u < 0x10000 then [224 + u / 4096, 128 + (u / 64) % 64, 128 + u % 64]
    else [240 + u / 262144, 128 + (u / 4096) % 64, 128 + (u / 64) % 64, 128 + u % 64]

/-- A parsed URL, modelling Go net/url.URL (external library) by its scheme
and the remainder after the scheme separator; the claims never inspect a
resolved relative reference, so no finer structure is needed. -/
structure URL where
  scheme : Bytes
  rest : Bytes
deriving DecidableEq, Repr

/-- ASCII control bytes rejected by net/url (below space, or DEL). -/
def hasCTL (s : Bytes) : Bool := s.any (fun b => b < 32 || b = 127)

/-- Lower-casing of an ASCII byte. -/
def lowerByte (c : Nat) : Nat := if 65 ≤ c && c ≤ 90 then c + 32 else c

/-- Hexadecimal digit byte. -/
def isHex (c : Nat) : Bool := isDigit c || (65 ≤ c && c ≤ 70) || (97 ≤ c && c ≤ 102)

/-- Modelled from the spec: getScheme of net/url (external library).
Returns none on the missing-protocol-scheme error, some none when the
reference has no scheme, and some (some (scheme, rest)) with the scheme
lower-cased otherwise. -/
def getScheme (acc : Bytes) : Bytes → Option (Option (Bytes × Bytes))
  | [] => some none
  | c :: cs =>
    if isAlpha c then getScheme (acc ++ [c]) cs
    else if isDigit c || c = 43 || c = 45 || c = 46 then
      if acc = [] then some none else getScheme (acc ++ [c]) cs
    else if c = 58 then
      if acc = [] then none else some (some (acc.map lowerByte, cs))
    else some none

/-- Every percent byte is followed by two hex digits (net/url escape check). -/
def escOK : Bytes → Bool
  | [] => true
  | 37 :: c1 :: c2 :: cs => isHex c1 && isHex c2 && escOK cs
  | 37 :: _ => false
  | _ :: cs => escOK cs

/-- Modelled from the spec: net/url.Parse (external library), reduced to the
checks the reader can observe: control bytes and malformed percent escapes
are errors, a leading colon is the missing-scheme error, otherwise the
scheme (possibly empty) is split off.  Host-specific validation is omitted:
the reader rejects all bytes at or below 0x20 before ever calling this. -/
def urlParse (s : Bytes) : Option URL :=
  if hasCTL s then none
  else match getScheme [] s with
    | none => none
    | some none => if escOK s then some ⟨[], s⟩ else none
    | some (some (sch, rest)) => if escOK rest then some ⟨sch, rest⟩ else none

/-- Rendering of a parsed URL back to a string. -/
def URL.render (u : URL) : Bytes := if u.scheme = [] then u.rest else u.scheme ++ [58] ++ u.rest

/-- Splits a scheme remainder into its authority (with the two slashes) and
the rest. -/
def authorityOf (rest : Bytes) : Bytes × Bytes :=
  if (bs "//").isPrefixOf rest then
    let tail := rest.drop 2
    let auth := tail.takeWhile (fun c => c ≠ 47 && c ≠ 63 && c ≠ 35)
    (47 :: 47 :: auth, tail.drop auth.length)
  else ([], rest)

/-- The directory part of a path: everything up to and including the last
slash. -/
def dirOf (path : Bytes) : Bytes := (path.reverse.dropWhile (fun c => c ≠ 47)).reverse

/-- Modelled from the spec: RFC 3986 reference resolution as performed by
net/url ResolveReference (external library), without dot-segment
normalization; the claims never compare a resolved relative reference. -/
def resolveReference (base ref : URL) : URL :=
  if ref.scheme ≠ [] then ref
  else if (bs "//").isPrefixOf ref.rest then ⟨base.scheme, ref.rest⟩
  else
    let ap := authorityOf base.rest
    if (bs "/").isPrefixOf ref.rest then ⟨base.scheme, ap.1 ++ ref.rest⟩
    else if ref.rest = [] then base
    else ⟨base.scheme, ap.1 ++ dirOf ap.2 ++ ref.rest⟩

/-- The error values a read can surface: SyntaxError records with line
number and reason, io.EOF, io.ErrUnexpectedEOF (bare or wrapped with the
fmt context text), and an error returned by net/url parsing. -/
inductive Err where
  | syn : Nat → String → Err
  | eof : Err
  | ueof : String → Err
  | urlErr : Err
deriving DecidableEq, Repr

/-- Outcome of an embedded Go call: a value, an error, a panic with its
message, or fuel exhaustion (the modelling artifact for unbounded loops).
Post-error mutations of the reader state are dropped: no caller of the
source ever observes state after an error. -/
inductive Res (α : Type) where
  | ok : α → Res α
  | err : Err → Res α
  | panicked : String → Res α
  | outOfFuel : Res α
deriving DecidableEq, Repr

/-- Struct Reader of the reader source.  The buffered byte source is the
list of unread input bytes plus the bufio buffer capacity; prefixPerLabel
is an association list (a nil and an empty Go map behave identically here);
skolemFresh models the already formatted time-and-rand entropy used on the
first skolem mint. -/
structure Reader where
  input : Bytes
  bufCap : Nat
  pending : Bytes
  BaseIRI : Option URL
  pfxPerLabel : List (Bytes × Bytes)
  lineNo : Nat
  anonNodeNo : Nat
  collectionLevel : Nat
  propListLevel : Nat
  skolemIRICache : Bytes
  skolemFresh : Bytes
deriving DecidableEq, Repr

/-- Go map lookup on the label-to-expansion map. -/
def lookupPfx : List (Bytes × Bytes) → Bytes → Option Bytes
  | [], _ => none
  | kv :: rest, k => if kv.1 = k then some kv.2 else lookupPfx rest k

/-- Go map insert (overwrite) on the label-to-expansion map. -/
def insertPfx : List (Bytes × Bytes) → Bytes → Bytes → List (Bytes × Bytes)
  | [], k, v => [(k, v)]
  | kv :: rest, k, v => if kv.1 = k then (k, v) :: rest else kv :: insertPfx rest k v

/-- Method skolemIRIRoot of the reader: lazily initialized session root,
root constant followed by formatted entropy and a slash. -/
def Reader.skolemRoot (r : Reader) : Bytes × Reader :=
  if r.skolemIRICache = [] then
    let c := skolemIRIRoot ++ r.skolemFresh ++ [47]
    (c, { r with skolemIRICache := c })
  else (r.skolemIRICache, r)

/-- Error code of a bufio ReadSlice call. -/
inductive SliceE where
  | noErr : SliceE
  | eofE : SliceE
  | full : SliceE
deriving DecidableEq, Repr

/-- Modelled from the spec: bufio.Reader ReadSlice up to a newline
(external library): the slice up to and including the first newline, or
ErrBufferFull with a full buffer when no newline fits, or the remaining
bytes with io.EOF. -/
def readSlice (input : Bytes) (cap : Nat) : Bytes × Bytes × SliceE :=
  match input.findIdx? (fun c => c = 10) with
  | some i =>
    if i < cap then (input.take (i + 1), input.drop (i + 1), .noErr)
    else (input.take cap, input.drop cap, .full)
  | none =>
    if cap ≤ input.length then (input.take cap, input.drop cap, .full)
    else (input, [], .eofE)

/-- Func lead of the reader: skips whitespace and comments in a line. -/
def lead : Bytes → Bytes
  | [] => []
  | c :: cs =>
    if c = 32 || c = 9 || c = 13 then lead cs
    else if c = 35 || c = 10 then []
    else c :: cs

/-- The loop of method line of the reader, with fuel for the read loop:
returns a buffer starting with a non-whitespace byte, skipping blank lines
and comment lines, counting lines, rejecting invalid UTF-8 and overlong
lines, and surfacing io.EOF when the stream ends cleanly. -/
def lineF : Nat → Reader → Bytes → Res (Bytes × Reader)
  | 0, _, _ => .outOfFuel
  | fuel + 1, r, cur =>
    let l := lead cur
    if l ≠ [] then .ok (l, r)
    else
      let sre := readSlice r.input r.bufCap
      match sre.2.2 with
      | .noErr =>
        let r2 := { r with input := sre.2.1, lineNo := r.lineNo + 1 }
        if utf8Valid sre.1 then lineF fuel r2 sre.1
        else .err (.syn r2.lineNo "invalid UTF-8")
      | .eofE =>
        if sre.1 ≠ [] then
          let r2 := { r with input := sre.2.1, lineNo := r.lineNo + 1 }
          if utf8Valid sre.1 then lineF fuel r2 sre.1
          else .err (.syn r2.lineNo "invalid UTF-8")
        else .err .eof
      | .full => .err (.syn r.lineNo "line too long")

/-- Method line of the reader: starts from the pending remainder. -/
def Reader.line (r : Reader) (fuel : Nat) : Res (Bytes × Reader) :=
  lineF fuel r r.pending

/-- Method lineContinue of the reader: like line but accepts the passed
remainder first and turns clean end of stream into unexpected EOF. -/
def lineContinue (fuel : Nat) (r : Reader) (remainder : Bytes) : Res (Bytes × Reader) :=
  let l := lead remainder
  if l ≠ [] then .ok (l, r)
  else
    match r.line fuel with
    | .err .eof => .err (.ueof "")
    | other => other

/-- Sequencing of embedded Go calls: errors, panics and fuel exhaustion
propagate. -/
def Res.bind : Res α → (α → Res β) → Res β
  | .ok a, f => f a
  | .err e, _ => .err e
  | .panicked m, _ => .panicked m
  | .outOfFuel, _ => .outOfFuel

/-- The scan loop of method inIRI: between the angle brackets, with the
source's character checks; a backslash hits the Unicode-escape TODO panic.
acc is the content read so far (line[1:i] of the source). -/
def inIRIgo (r : Reader) (acc : Bytes) : Bytes → Res (Bytes × Bytes)
  | [] => .err (.ueof "URI reference interupted")
  | c :: cs =>
    if c = 62 then
      match urlParse acc with
      | none => .err .urlErr
      | some l =>
        if l.scheme = [] then
          match r.BaseIRI with
          | none => .err (.syn r.lineNo "relative reference without base IRI")
          | some b => .ok ((resolveReference b l).render, cs)
        else .ok (acc, cs)
    else if c = 60 || c = 34 || c = 123 || c = 125 || c = 124 || c = 94 || c = 96 then
      .err (.syn r.lineNo "illegal character in IRI reference")
    else if c = 92 then .panicked "TODO: Unicode escape"
    else if c ≤ 32 then .err (.syn r.lineNo "control character in IRI reference")
    else inIRIgo r (acc ++ [c]) cs

/-- Method inIRI of the reader: continues from the opening angle bracket. -/
def inIRI (r : Reader) (line : Bytes) : Res (Bytes × Bytes) :=
  inIRIgo r [] (line.drop 1)

/-- The comparison loop of method inToken: remaining token bytes against
line bytes (the first letter was dispatched on by the caller). -/
def inTokenLoop (r : Reader) (token : String) : Bytes → Bytes → Res Unit
  | [], _ => .ok ()
  | _ :: _, [] => .err (.ueof ("token interrupted: " ++ token))
  | tc :: ts, lc :: ls =>
    if lc ≠ tc then .err (.syn r.lineNo ("unknown token; expected " ++ token))
    else inTokenLoop r token ts ls

/-- Method inToken of the reader: continues from the first letter of token. -/
def inToken (r : Reader) (line : Bytes) (token : String) : Res Bytes :=
  Res.bind (inTokenLoop r token ((bs token).drop 1) (line.drop 1)) fun _ =>
  .ok (line.drop (bs token).length)

/-- Generic scan to the next whitespace byte, accumulating what was passed
(the label and local-part loops of the source). -/
def scanToWS (acc : Bytes) : Bytes → Option (Bytes × Bytes)
  | [] => none
  | c :: cs => if isWS c then some (acc, cs) else scanToWS (acc ++ [c]) cs

/-- Outcome of the shared first-phase token scan: whitespace hit, colon hit,
or line exhausted. -/
inductive Scan1 where
  | ws : Bytes → Bytes → Scan1
  | colon : Bytes → Bytes → Scan1
  | exhausted : Scan1
deriving DecidableEq, Repr

/-- First-phase token scan of the undetermined-token loops: accumulate until
whitespace or a colon. -/
def scan1 (acc : Bytes) : Bytes → Scan1
  | [] => .exhausted
  | c :: cs =>
    if isWS c then .ws acc cs
    else if c = 58 then .colon acc cs
    else scan1 (acc ++ [c]) cs

/-- Local-part scan after a colon.  The source resets i to 0 and the loop
increment makes the scan resume at index 1, so the first byte of the local
part is taken without being examined. -/
def scanLocal (line : Bytes) : Option (Bytes × Bytes) :=
  match line with
  | [] => none
  | c0 :: rest => scanToWS [c0] rest

/-- Method inBlankLabel of the reader: continues from the underscore. -/
def inBlankLabel (r : Reader) (line : Bytes) : Res (Bytes × Bytes × Reader) :=
  match line with
  | _ :: c1 :: rest =>
    if c1 ≠ 58 then .err (.syn r.lineNo "prefixed name starts with underscore (\"_\")")
    else
      match scanToWS [] rest with
      | some (label, rem) =>
        let sr := r.skolemRoot
        .ok (sr.1 ++ bs "blank#" ++ label, rem, sr.2)
      | none => .err (.ueof "blank node not closed")
  | _ => .err (.ueof "blank node not closed")

/-- One line of the inAnonymous scan, starting at index 1 as in the source:
some (some rem) on the closing bracket, some none on any other
non-whitespace byte (the property-list TODO panic), none when exhausted. -/
def anonScan : Bytes → Option (Option Bytes)
  | [] => none
  | c :: cs => if isWS c then anonScan cs else if c = 93 then some (some cs) else some none

/-- The line loop of method inAnonymous. -/
def anonLoop : Nat → Reader → Bytes → Bytes → Res (Bytes × Bytes × Reader)
  | 0, _, _, _ => .outOfFuel
  | fuel + 1, r, skolemIRI, line =>
    match anonScan (line.drop 1) with
    | some (some rem) => .ok (skolemIRI, rem, r)
    | some none => .panicked "TODO: anonymous predicate-object list not implemented yet"
    | none =>
      Res.bind (lineContinue fuel r []) fun lr => anonLoop fuel lr.2 skolemIRI lr.1

/-- Method inAnonymous of the reader: continues from the opening bracket.
The dstp argument of the source is omitted: no reachable path appends. -/
def inAnonymous (fuel : Nat) (r0 : Reader) (line : Bytes) : Res (Bytes × Bytes × Reader) :=
  let r1 := { r0 with anonNodeNo := r0.anonNodeNo + 1 }
  let sr := r1.skolemRoot
  anonLoop fuel sr.2 (sr.1 ++ bs "anon#" ++ bs (toString r1.anonNodeNo)) line

/-- Method inCollection of the reader: the collection TODO panic. -/
def inCollection (_r : Reader) (_line : Bytes) : Res (Bytes × Bytes × Reader) :=
  .panicked "TODO: collection list not implemented yet"

/-- The case-insensitive BASE comparison on a 4-byte token. -/
def localIsBase (tok : Bytes) : Bool :=
  match tok with
  | [b0, a1, s2, e3] =>
    (b0 = 66 || b0 = 98) && (a1 = 65 || a1 = 97) && (s2 = 83 || s2 = 115) && (e3 = 69 || e3 = 101)
  | _ => false

/-- The case-insensitive PREFIX comparison on a 6-byte token. -/
def localIsPfx (tok : Bytes) : Bool :=
  match tok with
  | [p0, r1, e2, f3, i4, x5] =>
    (p0 = 80 || p0 = 112) && (r1 = 82 || r1 = 114) && (e2 = 69 || e2 = 101) &&
      (f3 = 70 || f3 = 102) && (i4 = 73 || i4 = 105) && (x5 = 88 || x5 = 120)
  | _ => false

/-- Method afterBaseDirective of the reader.  The url.Parse error of the
source is assigned but never checked, so a bad base leaves BaseIRI nil and
succeeds. -/
def afterBaseDirective (fuel : Nat) (r : Reader) (line0 : Bytes) (terminated : Bool) :
    Res (Bytes × Reader) :=
  Res.bind (lineContinue fuel r line0) fun lr =>
  match lr.1 with
  | 60 :: _ =>
    Res.bind (inIRI lr.2 lr.1) fun ir =>
    let r2 := { lr.2 with BaseIRI := urlParse ir.1 }
    if terminated then
      Res.bind (lineContinue fuel r2 ir.2) fun lr2 =>
      match lr2.1 with
      | 46 :: rest => .ok (rest, lr2.2)
      | _ => .err (.syn lr2.2.lineNo "base directive not terminated with \".\"")
    else .ok (ir.2, r2)
  | _ => .err (.syn lr.2.lineNo "IRI reference of base directive does not start with \"<\"")

/-- Method afterPrefixDirective of the reader (name shortened). -/
def afterPfxDirective (fuel : Nat) (r : Reader) (line0 : Bytes) (terminated : Bool) :
    Res (Bytes × Reader) :=
  Res.bind (lineContinue fuel r line0) fun lr =>
  match scan1 [] lr.1 with
  | .exhausted => .err (.ueof "prefix directive label interrupted")
  | .ws _ _ => .err (.syn lr.2.lineNo "prefix label without \":\" suffix")
  | .colon label rest =>
    Res.bind (lineContinue fuel lr.2 rest) fun lr2 =>
    match lr2.1 with
    | 60 :: _ =>
      Res.bind (inIRI lr2.2 lr2.1) fun ir =>
      let r3 := { lr2.2 with pfxPerLabel := insertPfx lr2.2.pfxPerLabel label ir.1 }
      if terminated then
        Res.bind (lineContinue fuel r3 ir.2) fun lr3 =>
        match lr3.1 with
        | 46 :: rest2 => .ok (rest2, lr3.2)
        | _ => .err (.syn lr3.2.lineNo "prefix directive is not terminated with \".\"")
      else .ok (ir.2, r3)
    | _ => .err (.syn lr2.2.lineNo "IRI of prefix directive does not start with \"<\"")

/-- Method inDirective of the reader: continues from the at sign. -/
def inDirective (fuel : Nat) (r : Reader) (line : Bytes) : Res (Bytes × Reader) :=
  match line with
  | _ :: c1 :: _ =>
    if c1 = 98 then
      Res.bind (inToken r (line.drop 1) "base") fun l2 => afterBaseDirective fuel r l2 true
    else if c1 = 112 then
      Res.bind (inToken r (line.drop 1) "prefix") fun l2 => afterPfxDirective fuel r l2 true
    else .err (.syn r.lineNo "unknown directive; expected either \"@base\" or \"@prefix\"")
  | _ => .err (.ueof "directive interrupted")

/-- Method readPredicate of the reader. -/
def readPredicate (fuel : Nat) (r : Reader) (line0 : Bytes) : Res (Bytes × Bytes × Reader) :=
  Res.bind (lineContinue fuel r line0) fun lr =>
  match lr.1 with
  | 60 :: _ => Res.bind (inIRI lr.2 lr.1) fun ir => .ok (ir.1, ir.2, lr.2)
  | line =>
    match scan1 [] line with
    | .exhausted => .err (.ueof "predicate interrupted")
    | .ws tok _ =>
      if tok = [97] then .ok (rdfType, line.drop 2, lr.2)
      else .err (.syn lr.2.lineNo "illegal predicate token")
    | .colon label rest =>
      match scanLocal rest with
      | none => .err (.ueof "predicate interrupted")
      | some (localPart, rem) =>
        match lookupPfx lr.2.pfxPerLabel label with
        | none => .err (.syn lr.2.lineNo "undefined prefix on predicate")
        | some pfx => .ok (pfx ++ localPart, rem, lr.2)

/-- Method inUndeterminedSubject of the reader: a prefixed name, or a
case-insensitive BASE or PREFIX directive (empty IRI return). -/
def inUndeterminedSubject (fuel : Nat) (r : Reader) (line : Bytes) : Res (Bytes × Bytes × Reader) :=
  match scan1 [] line with
  | .exhausted => .err (.ueof "subject interrupted")
  | .ws localTok rem =>
    if localIsBase localTok then
      Res.bind (afterBaseDirective fuel r rem false) fun br => .ok ([], br.1, br.2)
    else if localIsPfx localTok then
      Res.bind (afterPfxDirective fuel r rem false) fun br => .ok ([], br.1, br.2)
    else .err (.syn r.lineNo "illegal subject token")
  | .colon label rest =>
    match scanLocal rest with
    | none => .err (.ueof "subject interrupted")
    | some (localPart, rem) =>
      match lookupPfx r.pfxPerLabel label with
      | none => .err (.syn r.lineNo "undefined prefix on subject node")
      | some pfx => .ok (pfx ++ localPart, rem, r)

/-- Method inUndeterminedObject of the reader: a prefixed name, or the
boolean keywords.  The false branch stores the bytes of true, verbatim from
the source. -/
def inUndeterminedObject (r : Reader) (line : Bytes) (t : Triple) : Res (Bytes × Triple) :=
  match scan1 [] line with
  | .exhausted => .err (.ueof "object interrupted")
  | .ws tok rem =>
    if tok = bs "true" then .ok (rem, { t with Object := bs "true", DatatypeIRI := XSDBoolean })
    else if tok = bs "false" then .ok (rem, { t with Object := bs "true", DatatypeIRI := XSDBoolean })
    else .err (.syn r.lineNo "illegal object token")
  | .colon label rest =>
    match scanLocal rest with
    | none => .err (.ueof "object interrupted")
    | some (localPart, rem) =>
      match lookupPfx r.pfxPerLabel label with
      | none => .err (.syn r.lineNo "undefined prefix on object node")
      | some pfx => .ok (rem, { t with Object := pfx ++ localPart })

/-- The leading digit loop of method inNumberWithSign, verbatim: the index
is never advanced past a digit, so a digit at index 1 loops forever. -/
def numScan1 : Nat → Bytes → Nat → Res Nat
  | 0, _, _ => .outOfFuel
  | fuel + 1, line, i =>
    if line.length ≤ i then .err (.ueof "")
    else if isDigit (line.getD i 0) then numScan1 fuel line i
    else .ok i

/-- The fraction loop of method inNumberWithSign: inl is a finished
xsd:decimal (object bytes, remainder), inr hands over to the exponent part
(bytes so far, rest starting at the exponent letter). -/
def fracScan (r : Reader) (taken : Bytes) : Bytes → Res ((Bytes × Bytes) ⊕ (Bytes × Bytes))
  | [] => .err (.ueof "")
  | c :: cs =>
    if isDigit c then fracScan r (taken ++ [c]) cs
    else if isWS c then
      if taken.getLast? = some 46 then .err (.syn r.lineNo "decimal with empty fraction")
      else .ok (.inl (taken, cs))
    else if c = 69 || c = 101 then .ok (.inr (taken, c :: cs))
    else .err (.syn r.lineNo "illegal character in fraction")

/-- The exponent digit loop of method inNumberWithSign; first tracks
whether the scan is still at the offset position. -/
def expScan (r : Reader) (taken : Bytes) (first : Bool) : Bytes → Res (Bytes × Bytes)
  | [] => .err (.ueof "")
  | c :: cs =>
    if isDigit c then expScan r (taken ++ [c]) false cs
    else if isWS c then
      if first then .err (.syn r.lineNo "no decimals in double exponent")
      else .ok (taken, cs)
    else .err (.syn r.lineNo "illegal charater in exponent of double")

/-- The shared exponent tail of method inNumberWithSign, entered with the
rest starting at the exponent letter. -/
def expPart (r : Reader) (signOffset : Nat) (taken : Bytes) (rest : Bytes) (t : Triple) :
    Res (Bytes × Triple) :=
  if taken.length - signOffset < 3 then .err (.syn r.lineNo "fraction of double without decimals")
  else
    match rest with
    | [] => .err (.ueof "")
    | e :: rest1 =>
      let tk1 := taken ++ [e]
      match rest1 with
      | [] => .err (.ueof "")
      | c :: cs =>
        if c = 43 || c = 45 then
          Res.bind (expScan r (tk1 ++ [c]) true cs) fun p =>
            .ok (p.2, { t with DatatypeIRI := XSDDouble, Object := p.1 })
        else
          Res.bind (expScan r tk1 true rest1) fun p =>
            .ok (p.2, { t with DatatypeIRI := XSDDouble, Object := p.1 })

/-- Method inNumberWithSign of the reader: classifies a numeric literal by
lexical shape, with the source's stuck first loop under fuel. -/
def inNumberWithSign (fuel : Nat) (r : Reader) (line : Bytes) (signOffset : Nat) (t : Triple) :
    Res (Bytes × Triple) :=
  match numScan1 fuel line 1 with
  | .outOfFuel => .outOfFuel
  | .panicked m => .panicked m
  | .err e => .err e
  | .ok i =>
    if isWS (line.getD i 0) then
      if i - signOffset = 0 then .err (.syn r.lineNo "sign without number")
      else .ok (line.drop (i + 1), { t with DatatypeIRI := XSDInteger, Object := line.take i })
    else if line.getD i 0 = 46 then
      match fracScan r (line.take (i + 1)) (line.drop (i + 1)) with
      | .ok (.inl (obj, rem)) => .ok (rem, { t with DatatypeIRI := XSDDecimal, Object := obj })
      | .ok (.inr (taken, restE)) => expPart r signOffset taken restE t
      | .err e => .err e
      | .panicked m => .panicked m
      | .outOfFuel => .outOfFuel
    else if line.getD i 0 = 69 || line.getD i 0 = 101 then
      expPart r signOffset (line.take i) (line.drop i) t
    else .err (.syn r.lineNo "illegal character in number")

/-- Method nHex of the reader: decodes n hex digits and writes the rune. -/
def nHexGo (r : Reader) (u : Nat) : Nat → Bytes → Bytes → Res (Bytes × Bytes)
  | 0, line, b =>
    let rune : Int := if u < 2 ^ 31 then (u : Int) else (u : Int) - 2 ^ 32
    .ok (line, b ++ encodeRune rune)
  | _ + 1, [], _ => .err (.ueof "")
  | n + 1, c :: cs, b =>
    let u2 := u * 16
    if isDigit c then nHexGo r (u2 + (c - 48)) n cs b
    else if 65 ≤ c && c ≤ 70 then nHexGo r (u2 + (c - 55)) n cs b
    else if 97 ≤ c && c ≤ 102 then nHexGo r (u2 + (c - 87)) n cs b
    else .err (.syn r.lineNo "illegal hex in Unicode escape")

/-- Method nHex of the reader, entry point. -/
def nHex (r : Reader) (line : Bytes) (n : Nat) (b : Bytes) : Res (Bytes × Bytes) :=
  nHexGo r 0 n line b

/-- Method inEscape of the reader, verbatim: the named escapes are mapped,
u and U go to nHex, and every other byte — the callers always pass the
backslash itself here — is written as is. -/
def inEscape (r : Reader) (line : Bytes) (b : Bytes) : Res (Bytes × Bytes) :=
  match line with
  | [] => .err (.ueof "")
  | c :: cs =>
    if c = 117 then nHex r cs 4 b
    else if c = 85 then nHex r cs 8 b
    else
      let c2 :=
        if c = 116 then 9
        else if c = 98 then 8
        else if c = 110 then 10
        else if c = 114 then 13
        else if c = 102 then 12
        else c
      .ok (cs, b ++ [c2])

/-- The language-tag scan of method inLangTag; noDash models offset still
being 1, subEmpty models offset equal to i. -/
def langScan (r : Reader) (acc : Bytes) (noDash subEmpty : Bool) : Bytes → Res (Bytes × Bytes)
  | [] => .err (.ueof "")
  | c :: cs =>
    if isAlpha c then langScan r (acc ++ [c]) noDash false cs
    else if isDigit c then
      if noDash then .err (.syn r.lineNo "decimal in first code of language tag")
      else langScan r (acc ++ [c]) noDash false cs
    else if c = 45 then
      if subEmpty then .err (.syn r.lineNo "empty code in language tag")
      else langScan r (acc ++ [c]) false true cs
    else if isWS c then
      if subEmpty then .err (.syn r.lineNo "empty code in language tag")
      else .ok (acc, cs)
    else .err (.syn r.lineNo "illegal character in language tag")

/-- Method inLangTag of the reader: fixes the datatype to rdf:langString
and stores the tag bytes as written — no lower-casing happens. -/
def inLangTag (r : Reader) (line : Bytes) (t : Triple) : Res (Bytes × Triple) :=
  Res.bind (langScan r [] true true (line.drop 1)) fun p =>
  .ok (p.2, { t with DatatypeIRI := rdfLangString, LangTag := p.1 })

/-- Method inDatatype of the reader (suffixed Go to leave the source name
for the wrapperless call sites): continues from the first caret. -/
def inDatatypeGo (r : Reader) (line : Bytes) (t : Triple) : Res (Bytes × Triple) :=
  if line.length < 3 && (line.length < 2 || line.getD 1 0 = 94) then .err (.ueof "")
  else if line.getD 1 0 ≠ 94 then .err (.syn r.lineNo "single \"^\" after quoted string")
  else if line.length < 4 then .err (.ueof "")
  else if line.getD 2 0 = 60 then
    Res.bind (inIRI r (line.drop 2)) fun ir => .ok (ir.2, { t with DatatypeIRI := ir.1 })
  else
    match scan1 [] (line.drop 2) with
    | .exhausted => .err (.ueof "")
    | .ws _ _ => .err (.syn r.lineNo "datatype missing prefix")
    | .colon label rest =>
      match lookupPfx r.pfxPerLabel label with
      | none => .err (.syn r.lineNo "undefined prefix on datatype")
      | some pfx =>
        match scanToWS [] rest with
        | some (localPart, rem) => .ok (rem, { t with DatatypeIRI := pfx ++ localPart })
        | none => .err (.ueof "")

/-- Method afterQuotedLiteral of the reader: datatype or language-tag
continuation, with the xsd:string default. -/
def afterQuotedLiteral (r : Reader) (line : Bytes) (t : Triple) : Res (Bytes × Triple) :=
  match line with
  | [] => .ok ([], { t with DatatypeIRI := XSDString })
  | c :: cs =>
    if isWS c then .ok (cs, { t with DatatypeIRI := XSDString })
    else if c = 94 then inDatatypeGo r (c :: cs) t
    else if c = 64 then inLangTag r (c :: cs) t
    else .ok (c :: cs, { t with DatatypeIRI := XSDString })

/-- One scan step over a short quoted literal with quote byte q; true in
the result marks a backslash handoff (line starting at the backslash),
false a closing quote.  The error strings are the source's, including the
swapped new-line and carriage-return reasons. -/
def shortScan (r : Reader) (q : Nat) (acc : Bytes) : Bytes → Res (Bool × Bytes × Bytes)
  | [] => .err (.ueof "quoted literal not closed")
  | c :: cs =>
    if c = q then .ok (false, acc, cs)
    else if c = 92 then .ok (true, acc, c :: cs)
    else if c = 13 then .err (.syn r.lineNo "new line in quoted literal")
    else if c = 10 then .err (.syn r.lineNo "carriage return in quoted literal")
    else shortScan r q (acc ++ [c]) cs

/-- Methods inDoubleQuoteEscape and inSingleQuoteEscape of the reader,
shared over the quote byte: the escape loop of a short quoted literal.
inEscape receives the line starting at the backslash itself, as at every
call site of the source, so the backslash is written as is and the
selector byte is rescanned as content. -/
def shortQuoteEscape (fuel : Nat) (r : Reader) (q : Nat) (b : Bytes) (line : Bytes) (t : Triple) :
    Res (Bytes × Triple) :=
  match fuel with
  | 0 => .outOfFuel
  | fuel + 1 =>
    Res.bind (inEscape r line b) fun p =>
    match shortScan r q p.2 p.1 with
    | .ok (true, b2, line2) => shortQuoteEscape fuel r q b2 line2 t
    | .ok (false, b2, rem) => afterQuotedLiteral r rem { t with Object := b2 }
    | .err e => .err e
    | .panicked m => .panicked m
    | .outOfFuel => .outOfFuel

/-- Outcome of one line of the long-quote scan: a backslash handoff, the
closing triple quote, or the line ran out. -/
inductive LScan where
  | esc : Bytes → Bytes → LScan
  | closed : Bytes → Bytes → LScan
  | ranOut : Bytes → LScan
deriving DecidableEq, Repr

/-- The in-line scan of the long-quote loops: a quote may close only as the
first of three consecutive quote bytes; one or two quote bytes pass into
the content (the source advances i accordingly). -/
def longScan (q : Nat) (b : Bytes) : Bytes → LScan
  | [] => .ranOut b
  | c :: c1 :: c2 :: cs2 =>
    if c = 92 then .esc b (c :: c1 :: c2 :: cs2)
    else if c = q then
      if c1 ≠ q then longScan q (b ++ [c]) (c1 :: c2 :: cs2)
      else if c2 ≠ q then longScan q (b ++ [c, c1]) (c2 :: cs2)
      else .closed b cs2
    else longScan q (b ++ [c]) (c1 :: c2 :: cs2)
  | c :: cs =>
    if c = 92 then .esc b (c :: cs)
    else longScan q (b ++ [c]) cs

/-- Methods longDoubleQuote and longSingleQuote of the reader, shared over
the quote byte: accumulate lines until the closing triple quote.  After an
escape the source resumes scanning at index 1, so the byte after the
consumed backslash is copied untested. -/
def longQuote (fuel : Nat) (r : Reader) (q : Nat) (b : Bytes) (line : Bytes) (t : Triple) :
    Res (Bytes × Triple × Reader) :=
  match fuel with
  | 0 => .outOfFuel
  | fuel + 1 =>
    match longScan q b line with
    | .closed b2 rem =>
      Res.bind (afterQuotedLiteral r rem { t with Object := b2 }) fun p => .ok (p.1, p.2, r)
    | .esc b2 lineBS =>
      Res.bind (inEscape r lineBS b2) fun p =>
      match p.1 with
      | [] => longQuote fuel r q p.2 [] t
      | h :: rest2 => longQuote fuel r q (p.2 ++ [h]) rest2 t
    | .ranOut b2 =>
      match r.line fuel with
      | .ok lr => longQuote fuel lr.2 q b2 lr.1 t
      | .err .eof => .err (.ueof "long quoted literal not closed")
      | .err e => .err e
      | .panicked m => .panicked m
      | .outOfFuel => .outOfFuel

/-- Method inDoubleQuote of the reader: continues from the first quote.
Both continuation paths of the long double-quote branch call the
long SINGLE quote routine, verbatim from the source. -/
def inDoubleQuote (fuel : Nat) (r : Reader) (line : Bytes) (t : Triple) :
    Res (Bytes × Triple × Reader) :=
  if 2 < line.length && line.getD 1 0 = 34 && line.getD 2 0 = 34 then
    match longScan 34 [] (line.drop 3) with
    | .closed obj rem =>
      Res.bind (afterQuotedLiteral r rem { t with Object := obj }) fun p => .ok (p.1, p.2, r)
    | .esc acc lineBS => longQuote fuel r 39 acc lineBS t
    | .ranOut acc => longQuote fuel r 39 acc [] t
  else
    match shortScan r 34 [] (line.drop 1) with
    | .ok (false, obj, rem) =>
      Res.bind (afterQuotedLiteral r rem { t with Object := obj }) fun p => .ok (p.1, p.2, r)
    | .ok (true, acc, lineBS) =>
      Res.bind (shortQuoteEscape fuel r 34 acc lineBS t) fun p => .ok (p.1, p.2, r)
    | .err e => .err e
    | .panicked m => .panicked m
    | .outOfFuel => .outOfFuel

/-- Method inSingleQuote of the reader: continues from the first
apostrophe. -/
def inSingleQuote (fuel : Nat) (r : Reader) (line : Bytes) (t : Triple) :
    Res (Bytes × Triple × Reader) :=
  if 2 < line.length && line.getD 1 0 = 39 && line.getD 2 0 = 39 then
    match longScan 39 [] (line.drop 3) with
    | .closed obj rem =>
      Res.bind (afterQuotedLiteral r rem { t with Object := obj }) fun p => .ok (p.1, p.2, r)
    | .esc acc lineBS => longQuote fuel r 39 acc lineBS t
    | .ranOut acc => longQuote fuel r 39 acc [] t
  else
    match shortScan r 39 [] (line.drop 1) with
    | .ok (false, obj, rem) =>
      Res.bind (afterQuotedLiteral r rem { t with Object := obj }) fun p => .ok (p.1, p.2, r)
    | .ok (true, acc, lineBS) =>
      Res.bind (shortQuoteEscape fuel r 39 acc lineBS t) fun p => .ok (p.1, p.2, r)
    | .err e => .err e
    | .panicked m => .panicked m
    | .outOfFuel => .outOfFuel

/-- Method readObject of the reader: maps the next node to the triple.
The dstp argument is threaded although no reachable path appends to it. -/
def readObject (fuel : Nat) (r : Reader) (line0 : Bytes) (t : Triple) (dst : List Triple) :
    Res (Bytes × Triple × Reader × List Triple) :=
  Res.bind (lineContinue fuel r line0) fun lr =>
  match lr.1 with
  | [] => .panicked "index out of range"
  | c :: _ =>
    if c = 60 then
      Res.bind (inIRI lr.2 lr.1) fun p => .ok (p.2, { t with Object := p.1 }, lr.2, dst)
    else if c = 95 then
      Res.bind (inBlankLabel lr.2 lr.1) fun p => .ok (p.2.1, { t with Object := p.1 }, p.2.2, dst)
    else if c = 91 then
      Res.bind (inAnonymous fuel lr.2 lr.1) fun p =>
        .ok (p.2.1, { t with Object := p.1 }, p.2.2, dst)
    else if c = 40 then
      Res.bind (inCollection lr.2 lr.1) fun p =>
        .ok (p.2.1, { t with Object := p.1 }, p.2.2, dst)
    else if c = 34 then
      Res.bind (inDoubleQuote fuel lr.2 lr.1 t) fun p => .ok (p.1, p.2.1, p.2.2, dst)
    else if c = 39 then
      Res.bind (inSingleQuote fuel lr.2 lr.1 t) fun p => .ok (p.1, p.2.1, p.2.2, dst)
    else if c = 43 || c = 45 then
      Res.bind (inNumberWithSign fuel lr.2 lr.1 1 t) fun p => .ok (p.1, p.2, lr.2, dst)
    else if c = 46 || isDigit c then
      Res.bind (inNumberWithSign fuel lr.2 lr.1 0 t) fun p => .ok (p.1, p.2, lr.2, dst)
    else Res.bind (inUndeterminedObject lr.2 lr.1 t) fun p => .ok (p.1, p.2, lr.2, dst)

/-- The dispatch loop of method readSubject: directives restart the loop,
terms return. -/
def readSubjectLoop : Nat → Reader → Bytes → List Triple →
    Res (Bytes × Bytes × Reader × List Triple)
  | 0, _, _, _ => .outOfFuel
  | fuel + 1, r, line, dst =>
    match line with
    | [] => .panicked "index out of range"
    | c :: _ =>
      if c = 64 then
        Res.bind (inDirective fuel r line) fun dr =>
        Res.bind (lineContinue fuel dr.2 dr.1) fun lr =>
        readSubjectLoop fuel lr.2 lr.1 dst
      else if c = 60 then Res.bind (inIRI r line) fun ir => .ok (ir.1, ir.2, r, dst)
      else if c = 91 then
        Res.bind (inAnonymous fuel r line) fun ar => .ok (ar.1, ar.2.1, ar.2.2, dst)
      else if c = 40 then
        Res.bind (inCollection r line) fun cr => .ok (cr.1, cr.2.1, cr.2.2, dst)
      else if c = 95 then
        Res.bind (inBlankLabel r line) fun br => .ok (br.1, br.2.1, br.2.2, dst)
      else
        Res.bind (inUndeterminedSubject fuel r line) fun ur =>
        if ur.1 ≠ [] then .ok (ur.1, ur.2.1, ur.2.2, dst)
        else
          Res.bind (lineContinue fuel ur.2.2 ur.2.1) fun lr =>
          readSubjectLoop fuel lr.2 lr.1 dst

/-- Method readSubject of the reader. -/
def readSubject (fuel : Nat) (r : Reader) (dst : List Triple) :
    Res (Bytes × Bytes × Reader × List Triple) :=
  Res.bind (r.line fuel) fun lr => readSubjectLoop fuel lr.2 lr.1 dst

/-- Outcome of method ReadAppend: the extended buffer on success, the
buffer as extended so far alongside the error on failure, a panic, or fuel
exhaustion. -/
inductive RRes where
  | done : List Triple → Reader → RRes
  | fail : List Triple → Err → RRes
  | panicked : String → RRes
  | outOfFuel : RRes
deriving DecidableEq, Repr

/-- The predicate and object loops of method ReadAppend: none in the
predicate slot re-enters the predicate recognizer, some p reads objects
for p. -/
def raLoop : Nat → Reader → List Triple → Bytes → Option Bytes → Bytes → RRes
  | 0, _, _, _, _, _ => .outOfFuel
  | fuel + 1, r, dst, subject, none, line =>
    match readPredicate fuel r line with
    | .ok (p, rem, r2) => raLoop fuel r2 dst subject (some p) rem
    | .err e => .fail dst e
    | .panicked m => .panicked m
    | .outOfFuel => .outOfFuel
  | fuel + 1, r, dst, subject, some predicate, line =>
    match readObject fuel r line ⟨subject, predicate, [], [], []⟩ dst with
    | .err e => .fail dst e
    | .panicked m => .panicked m
    | .outOfFuel => .outOfFuel
    | .ok (rem, t, r2, dst1) =>
      match lineContinue fuel r2 rem with
      | .err e => .fail (dst1 ++ [t]) e
      | .panicked m => .panicked m
      | .outOfFuel => .outOfFuel
      | .ok (line2, r3) =>
        match line2 with
        | 46 :: rest => .done (dst1 ++ [t]) { r3 with pending := rest }
        | 44 :: rest => raLoop fuel r3 (dst1 ++ [t]) subject (some predicate) rest
        | 59 :: rest => raLoop fuel r3 (dst1 ++ [t]) subject none rest
        | _ => .fail (dst1 ++ [t]) (.syn r3.lineNo "illegal triple continuation")

/-- Method ReadAppend of the reader: reads one statement, appending its
triples to dst. -/
def readAppend (fuel : Nat) (r : Reader) (dst : List Triple) : RRes :=
  match readSubject fuel r dst with
  | .ok (subject, line, r2, dst2) => raLoop fuel r2 dst2 subject none line
  | .err e => .fail dst e
  | .panicked m => .panicked m
  | .outOfFuel => .outOfFuel

/-- How a whole-stream read ends. -/
inductive StreamEnd where
  | eos : StreamEnd
  | failed : Err → StreamEnd
  | panicked : String → StreamEnd
  | outOfFuel : StreamEnd
deriving DecidableEq, Repr

/-- The ReadSample loop of TestReader in the test file: call ReadAppend
until clean end of stream or an error. -/
def readAll : Nat → Reader → List Triple → List Triple × StreamEnd
  | 0, _, dst => (dst, .outOfFuel)
  | fuel + 1, r, dst =>
    match readAppend fuel r dst with
    | .done dst2 r2 => readAll fuel r2 dst2
    | .fail dst2 .eof => (dst2, .eos)
    | .fail dst2 e => (dst2, .failed e)
    | .panicked m => (dst, .panicked m)
    | .outOfFuel => (dst, .outOfFuel)

/-- A fresh Reader over the given input: default 4 KiB bufio buffer, no
base IRI, no prefix bindings, placeholder entropy for the lazy skolem
root. -/
def mkReader (input : Bytes) : Reader :=
  { input := input, bufCap := 4096, pending := [], BaseIRI := none, pfxPerLabel := [],
    lineNo := 0, anonNodeNo := 0, collectionLevel := 0, propListLevel := 0,
    skolemIRICache := [], skolemFresh := bs "feedc0de" }

/-- The invariant of claim C8 on a single triple. -/
def PLang (t : Triple) : Prop := t.LangTag ≠ [] → t.DatatypeIRI = rdfLangString

/-- The frame-and-invariant property of a ReadAppend outcome relative to
the sink it was called with: whatever is returned extends the sink, and
every added triple satisfies the C8 invariant. -/
def Frame (dst : List Triple) : RRes → Prop
  | .done out _ => ∃ ex, out = dst ++ ex ∧ ∀ t ∈ ex, PLang t
  | .fail out _ => ∃ ex, out = dst ++ ex ∧ ∀ t ∈ ex, PLang t
  | _ => True

/-- The slice a ReadAppend outcome hands back (present on success and on
failure alike). -/
def outTriples : RRes → Option (List Triple)
  | .done d _ => some d
  | .fail d _ => some d
  | _ => none

/-- Byte class accepted verbatim inside an IRI reference by the scanner,
the percent sign excluded so that the net/url escape check is trivial. -/
def iriByteOK (c : Nat) : Bool :=
  33 ≤ c && c < 127 && c ≠ 60 && c ≠ 62 && c ≠ 34 && c ≠ 123 && c ≠ 125 && c ≠ 124 &&
    c ≠ 94 && c ≠ 96 && c ≠ 92 && c ≠ 37

/-- A well-formed absolute IRI for the round-trip claim: safe bytes only
and a scheme recognized by the URL parser. -/
def iriOK (s : Bytes) : Bool :=
  s.all iriByteOK &&
    (match urlParse s with
     | some u => !u.scheme.isEmpty
     | none => false)

/-- Byte class kept verbatim by both the N-Triples quoting and the
quoted-literal scanner: printable ASCII without quote and backslash. -/
def litByteOK (c : Nat) : Bool := 32 ≤ c && c < 127 && c ≠ 34 && c ≠ 92

/-- Mirror of the language-tag scanner acceptance on a full tag. -/
def langOKgo (noDash subEmpty : Bool) : Bytes → Bool
  | [] => !subEmpty
  | c :: cs =>
    if isAlpha c then langOKgo noDash false cs
    else if isDigit c then (if noDash then false else langOKgo noDash false cs)
    else if c = 45 then (if subEmpty then false else langOKgo false true cs)
    else false

/-- A language tag the scanner accepts in full. -/
def langOK (s : Bytes) : Bool := langOKgo true true s

/-- The Reader state after the first full line is drained from a fresh
4 KiB-buffered Reader. -/
def rdr1 : Reader := ⟨[], 4096, [], none, [], 1, 0, 0, 0, [], bs "feedc0de"⟩

/-- Same state with the trailing new-line pending after the dot. -/
def rdr2 : Reader := ⟨[], 4096, [10], none, [], 1, 0, 0, 0, [], bs "feedc0de"⟩

/-! Theorems.  First the divergence lemma for the stuck digit loop of
inNumberWithSign: since the source never advances the index past a digit,
the loop runs forever whenever the byte at the start index is a digit. -/

/-- A digit at the inspected index starves the first loop of
inNumberWithSign of any amount of fuel. -/
theorem numScan1_stuck (l : Bytes) (i : Nat) (hlt : i < l.length)
    (hdig : isDigit (l.getD i 0) = true) : ∀ fuel, numScan1 fuel l i = .outOfFuel := by
  intro fuel
  induction fuel with
  | zero => rfl
  | succ f ih =>
    have h1 : ¬ (l.length ≤ i) := Nat.not_le.mpr hlt
    rw [numScan1.eq_def]
    simp only [h1, if_false, hdig, if_true, ih]

/-- The number recognizer inherits the divergence. -/
theorem inNumberWithSign_stuck (fuel : Nat) (r : Reader) (s : Nat) (t : Triple) :
    inNumberWithSign fuel r (bs "12 .\n") s t = .outOfFuel := by
  have h := numScan1_stuck (bs "12 .\n") 1 (by decide) (by decide) fuel
  rw [inNumberWithSign, h]

/-- The number recognizer inherits the divergence (explicit byte form). -/
theorem inNumberWithSign_stuckL (fuel : Nat) (r : Reader) (s : Nat) (t : Triple) :
    inNumberWithSign fuel r [49, 50, 32, 46, 10] s t = .outOfFuel := by
  have h := numScan1_stuck [49, 50, 32, 46, 10] 1 (by decide) (by decide) fuel
  rw [inNumberWithSign, h]

/-- C1: the claim that ReadAppend always terminates with one of the four
documented outcomes fails on the code: a backslash in an IRI reference and
a collection object both panic on a TODO, and a numeric literal of two or
more digits loops forever — for every amount of fuel — because the digit
scan never advances its index. -/
theorem C1_readappend_not_total :
    readAll 64 (mkReader (bs "<http://e/s> <http://e/p> <http://e/o\\u0041> .\n")) [] =
      ([], .panicked "TODO: Unicode escape") ∧
    readAll 64 (mkReader (bs "<http://e/s> <http://e/p> (1 2) .\n")) [] =
      ([], .panicked "TODO: collection list not implemented yet") ∧
    ∀ fuel, readAll fuel (mkReader (bs "<http://e/s> <http://e/p> 12 .\n")) [] =
      ([], .outOfFuel) := by
  refine ⟨by decide, by decide, ?_⟩
  have hin : bs "<http://e/s> <http://e/p> 12 .\n" =
      [60, 104, 116, 116, 112, 58, 47, 47, 101, 47, 115, 62, 32, 60, 104, 116, 116, 112,
        58, 47, 47, 101, 47, 112, 62, 32, 49, 50, 32, 46, 10] := by decide
  rw [hin]
  intro fuel
  match fuel with
  | 0 => rfl
  | 1 => rfl
  | 2 => rfl
  | (f + 3) =>
    have hs : readSlice
        [60, 104, 116, 116, 112, 58, 47, 47, 101, 47, 115, 62, 32, 60, 104, 116, 116, 112,
          58, 47, 47, 101, 47, 112, 62, 32, 49, 50, 32, 46, 10] 4096 =
        ([60, 104, 116, 116, 112, 58, 47, 47, 101, 47, 115, 62, 32, 60, 104, 116, 116, 112,
          58, 47, 47, 101, 47, 112, 62, 32, 49, 50, 32, 46, 10], [], .noErr) := by decide
    have hutf : utf8Valid
        [60, 104, 116, 116, 112, 58, 47, 47, 101, 47, 115, 62, 32, 60, 104, 116, 116, 112,
          58, 47, 47, 101, 47, 112, 62, 32, 49, 50, 32, 46, 10] = true := by decide
    simp +decide [readAll, readAppend, readSubject, Reader.line, lineF, hs, hutf, lead,
      readSubjectLoop, raLoop, readPredicate, readObject, lineContinue, Res.bind,
      inIRI, inIRIgo, urlParse, getScheme, hasCTL, escOK, isWS, isDigit, isAlpha,
      mkReader, inNumberWithSign_stuckL]

/-- C2: IsSkolemIRI has the HasPrefix arguments reversed: a string that
does begin with the reserved skolem namespace — here a minted-shaped blank
node IRI — gets false, while the claim requires true; conversely a proper
prefix of the namespace would get true. -/
theorem C2_is_skolem_iri_reversed :
    IsSkolemIRI (bs "web+skolem://quies.net/1a2b/blank#x") = false ∧
    List.isPrefixOf skolemIRIRoot (bs "web+skolem://quies.net/1a2b/blank#x") = true ∧
    IsSkolemIRI (bs "web") = true ∧
    List.isPrefixOf skolemIRIRoot (bs "web") = false := by
  decide

/-- C3: the bare keyword false in object position is emitted with lexical
object form true (a verbatim slip in inUndeterminedObject), so the
XSDBoolean accessor yields the value true where the claim requires
false. -/
theorem C3_keyword_false_reads_as_true :
    readAll 64 (mkReader (bs "<http://e/s> <http://e/p> false .\n")) [] =
      ([⟨bs "http://e/s", bs "http://e/p", bs "true", XSDBoolean, []⟩], .eos) ∧
    Triple.xsdBoolean ⟨bs "http://e/s", bs "http://e/p", bs "true", XSDBoolean, []⟩ =
      .ok true ∧
    readAll 64 (mkReader (bs "<http://e/s> <http://e/p> true .\n")) [] =
      ([⟨bs "http://e/s", bs "http://e/p", bs "true", XSDBoolean, []⟩], .eos) := by
  refine ⟨by decide, by decide, by decide⟩

/-- C4: XSDString returns the empty string instead of the lexical form
stored in the Object field when the datatype matches; the wrong-datatype
error half of the claim does hold. -/
theorem C4_xsdstring_returns_empty :
    Triple.xsdString ⟨bs "http://e/s", bs "http://e/p", bs "hi", XSDString, []⟩ =
      .ok [] ∧
    bs "hi" ≠ [] ∧
    Triple.xsdString ⟨bs "http://e/s", bs "http://e/p", bs "hi", XSDBoolean, []⟩ =
      .error .notOfDatatype := by
  decide

/-- C5: a language tag is stored exactly as written — input tag EN keeps
LangTag EN, not the lower-cased en the claim requires — although the
datatype is fixed to rdf:langString as claimed. -/
theorem C5_lang_tag_not_lowercased :
    readAll 64 (mkReader (bs "<http://e/s> <http://e/p> \"x\"@EN .\n")) [] =
      ([⟨bs "http://e/s", bs "http://e/p", bs "x", rdfLangString, bs "EN"⟩], .eos) ∧
    bs "EN" ≠ bs "en" := by
  refine ⟨by decide, by decide⟩

/-- C6: a well-formed directive followed by clean end of stream is reported
as unexpected EOF, not as clean end-of-stream: after handling a directive
readSubject continues with lineContinue, which converts the clean EOF.
All four directive spellings are evaluated. -/
theorem C6_directive_then_eof_is_unexpected_eof :
    readAll 64 (mkReader (bs "@base <http://e/> .")) [] = ([], .failed (.ueof "")) ∧
    readAll 64 (mkReader (bs "@prefix p: <http://e/> .")) [] = ([], .failed (.ueof "")) ∧
    readAll 64 (mkReader (bs "BASE <http://e/>\n")) [] = ([], .failed (.ueof "")) ∧
    readAll 64 (mkReader (bs "PREFIX p: <http://e/>\n")) [] = ([], .failed (.ueof "")) := by
  refine ⟨by decide, by decide, by decide, by decide⟩

/-- C7 counterexample: a backslash followed by x inside a short quoted
literal is not reported as a syntax error; the statement parses and both
bytes survive in the object. -/
theorem C7_unknown_escape_not_rejected :
    readAll 64 (mkReader (bs "<http://e/s> <http://e/p> \"a\\xb\" .\n")) [] =
      ([⟨bs "http://e/s", bs "http://e/p", bs "a\\xb", XSDString, []⟩], .eos) := by
  decide

/-- C7 amended: in the short quoted-literal modes a backslash followed by
any byte (other than the closing quote, a backslash, CR or LF, which end
the scan differently) is silently kept as literal content: the backslash
and the byte both pass through unchanged, and no syntax error is
reported. -/
theorem C7_escape_passthrough (fuel : Nat) (r : Reader) (t : Triple) (c : Nat)
    (h34 : c ≠ 34) (h39 : c ≠ 39) (h92 : c ≠ 92) (h13 : c ≠ 13) (h10 : c ≠ 10) :
    inDoubleQuote (fuel + 1) r ([34, 97, 92] ++ [c] ++ [98, 34, 32, 46]) t =
      .ok ([46], { t with Object := [97, 92, c, 98], DatatypeIRI := XSDString }, r) ∧
    inSingleQuote (fuel + 1) r ([39, 97, 92] ++ [c] ++ [98, 39, 32, 46]) t =
      .ok ([46], { t with Object := [97, 92, c, 98], DatatypeIRI := XSDString }, r) := by
  constructor
  · simp +decide [inDoubleQuote, shortScan, shortQuoteEscape, inEscape, afterQuotedLiteral,
      Res.bind, isWS, h34, h92, h13, h10]
  · simp +decide [inSingleQuote, shortScan, shortQuoteEscape, inEscape, afterQuotedLiteral,
      Res.bind, isWS, h39, h92, h13, h10]

/-! Machinery for the language-tag invariant (C8) and the append-only
frame property (C10): every triple ReadAppend adds to the sink satisfies
PLang, and the sink is only ever extended. -/

/-- Inversion of Res.bind on a successful outcome. -/
theorem Res.bind_ok_iff (x : Res α) (f : α → Res β) (b : β) :
    Res.bind x f = .ok b ↔ ∃ a, x = .ok a ∧ f a = .ok b := by
  cases x <;> simp [Res.bind]

/-- inLangTag always fixes the datatype to rdf:langString. -/
theorem inLangTag_dt (r : Reader) (line : Bytes) (t t' : Triple) (rem : Bytes)
    (h : inLangTag r line t = .ok (rem, t')) : t'.DatatypeIRI = rdfLangString := by
  unfold inLangTag at h
  rw [Res.bind_ok_iff] at h
  obtain ⟨a, _, h2⟩ := h
  cases h2
  rfl

/-- inDatatypeGo never touches the language tag. -/
theorem inDatatypeGo_lang (r : Reader) (line : Bytes) (t t' : Triple) (rem : Bytes)
    (h : inDatatypeGo r line t = .ok (rem, t')) : t'.LangTag = t.LangTag := by
  unfold inDatatypeGo at h
  split at h
  · exact absurd h (by simp)
  · split at h
    · exact absurd h (by simp)
    · split at h
      · exact absurd h (by simp)
      · split at h
        · rw [Res.bind_ok_iff] at h
          obtain ⟨a, _, h2⟩ := h
          cases h2
          rfl
        · split at h
          · exact absurd h (by simp)
          · exact absurd h (by simp)
          · split at h
            · exact absurd h (by simp)
            · split at h
              · cases h
                rfl
              · exact absurd h (by simp)

/-- afterQuotedLiteral establishes the C8 invariant whenever the incoming
triple has no language tag yet. -/
theorem afterQuotedLiteral_plang (r : Reader) (line : Bytes) (t t' : Triple) (rem : Bytes)
    (h0 : t.LangTag = []) (h : afterQuotedLiteral r line t = .ok (rem, t')) : PLang t' := by
  unfold afterQuotedLiteral at h
  split at h
  next => cases h; exact fun hx => absurd h0 hx
  next c cs =>
    split at h
    · cases h; exact fun hx => absurd h0 hx
    · split at h
      · intro hx
        have hl := inDatatypeGo_lang _ _ _ _ _ h
        rw [h0] at hl
        exact absurd hl hx
      · split at h
        · exact fun _ => inLangTag_dt _ _ _ _ _ h
        · cases h; exact fun hx => absurd h0 hx

/-- C7 witness: the amended passthrough at the concrete byte x. -/
theorem C7_escape_passthrough_witness :
    inDoubleQuote 1 (mkReader []) ([34, 97, 92] ++ [120] ++ [98, 34, 32, 46])
        ⟨[], [], [], [], []⟩ =
      .ok ([46], ⟨[], [], [97, 92, 120, 98], XSDString, []⟩, mkReader []) ∧
    inSingleQuote 1 (mkReader []) ([39, 97, 92] ++ [120] ++ [98, 39, 32, 46])
        ⟨[], [], [], [], []⟩ =
      .ok ([46], ⟨[], [], [97, 92, 120, 98], XSDString, []⟩, mkReader []) :=
  C7_escape_passthrough 0 (mkReader []) ⟨[], [], [], [], []⟩ 120
    (by decide) (by decide) (by decide) (by decide) (by decide)

/-- The short-quote escape loop establishes the invariant. -/
theorem shortQuoteEscape_plang (fuel : Nat) (r : Reader) (q : Nat) (b line : Bytes)
    (t t' : Triple) (rem : Bytes) (h0 : t.LangTag = [])
    (h : shortQuoteEscape fuel r q b line t = .ok (rem, t')) : PLang t' := by
  revert h
  induction fuel generalizing b line rem t' with
  | zero => intro h; simp [shortQuoteEscape] at h
  | succ f ih =>
    intro h
    unfold shortQuoteEscape at h
    rw [Res.bind_ok_iff] at h
    obtain ⟨p, h1, h2⟩ := h
    split at h2
    · exact ih _ _ _ _ h2
    · exact afterQuotedLiteral_plang _ _ _ _ _ (by simp [h0]) h2
    · cases h2
    · cases h2
    · cases h2

/-- The long-quote line loop establishes the invariant. -/
theorem longQuote_plang (fuel : Nat) (r : Reader) (q : Nat) (b line : Bytes)
    (t t' : Triple) (rem : Bytes) (r' : Reader) (h0 : t.LangTag = [])
    (h : longQuote fuel r q b line t = .ok (rem, t', r')) : PLang t' := by
  revert h
  induction fuel generalizing r b line rem t' r' with
  | zero => intro h; simp [longQuote] at h
  | succ f ih =>
    intro h
    unfold longQuote at h
    split at h
    · rw [Res.bind_ok_iff] at h
      obtain ⟨p, h1, h2⟩ := h
      cases h2
      exact afterQuotedLiteral_plang _ _ _ _ _ (by simp [h0]) h1
    · rw [Res.bind_ok_iff] at h
      obtain ⟨p, h1, h2⟩ := h
      split at h2
      · exact ih _ _ _ _ _ _ h2
      · exact ih _ _ _ _ _ _ h2
    · split at h
      · exact ih _ _ _ _ _ _ h
      · cases h
      · cases h
      · cases h
      · cases h

/-- inDoubleQuote establishes the invariant. -/
theorem inDoubleQuote_plang (fuel : Nat) (r : Reader) (line : Bytes) (t t' : Triple)
    (rem : Bytes) (r' : Reader) (h0 : t.LangTag = [])
    (h : inDoubleQuote fuel r line t = .ok (rem, t', r')) : PLang t' := by
  unfold inDoubleQuote at h
  split at h
  · split at h
    · rw [Res.bind_ok_iff] at h
      obtain ⟨p, h1, h2⟩ := h
      cases h2
      exact afterQuotedLiteral_plang _ _ _ _ _ (by simp [h0]) h1
    · exact longQuote_plang _ _ _ _ _ _ _ _ _ (by simp [h0]) h
    · exact longQuote_plang _ _ _ _ _ _ _ _ _ (by simp [h0]) h
  · split at h
    · rw [Res.bind_ok_iff] at h
      obtain ⟨p, h1, h2⟩ := h
      cases h2
      exact afterQuotedLiteral_plang _ _ _ _ _ (by simp [h0]) h1
    · rw [Res.bind_ok_iff] at h
      obtain ⟨p, h1, h2⟩ := h
      cases h2
      exact shortQuoteEscape_plang _ _ _ _ _ _ _ _ h0 h1
    · cases h
    · cases h
    · cases h

/-- inSingleQuote establishes the invariant. -/
theorem inSingleQuote_plang (fuel : Nat) (r : Reader) (line : Bytes) (t t' : Triple)
    (rem : Bytes) (r' : Reader) (h0 : t.LangTag = [])
    (h : inSingleQuote fuel r line t = .ok (rem, t', r')) : PLang t' := by
  unfold inSingleQuote at h
  split at h
  · split at h
    · rw [Res.bind_ok_iff] at h
      obtain ⟨p, h1, h2⟩ := h
      cases h2
      exact afterQuotedLiteral_plang _ _ _ _ _ (by simp [h0]) h1
    · exact longQuote_plang _ _ _ _ _ _ _ _ _ (by simp [h0]) h
    · exact longQuote_plang _ _ _ _ _ _ _ _ _ (by simp [h0]) h
  · split at h
    · rw [Res.bind_ok_iff] at h
      obtain ⟨p, h1, h2⟩ := h
      cases h2
      exact afterQuotedLiteral_plang _ _ _ _ _ (by simp [h0]) h1
    · rw [Res.bind_ok_iff] at h
      obtain ⟨p, h1, h2⟩ := h
      cases h2
      exact shortQuoteEscape_plang _ _ _ _ _ _ _ _ h0 h1
    · cases h
    · cases h
    · cases h

/-- expPart never touches the language tag. -/
theorem expPart_lang (r : Reader) (s : Nat) (taken rest : Bytes) (t t' : Triple) (rem : Bytes)
    (h : expPart r s taken rest t = .ok (rem, t')) : t'.LangTag = t.LangTag := by
  unfold expPart at h
  split at h
  · cases h
  · split at h
    · cases h
    · split at h
      · cases h
      · split at h
        · rw [Res.bind_ok_iff] at h
          obtain ⟨p, h1, h2⟩ := h
          cases h2
          rfl
        · rw [Res.bind_ok_iff] at h
          obtain ⟨p, h1, h2⟩ := h
          cases h2
          rfl

/-- inNumberWithSign never touches the language tag. -/
theorem inNumberWithSign_lang (fuel : Nat) (r : Reader) (line : Bytes) (s : Nat)
    (t t' : Triple) (rem : Bytes)
    (h : inNumberWithSign fuel r line s t = .ok (rem, t')) : t'.LangTag = t.LangTag := by
  unfold inNumberWithSign at h
  split at h
  · cases h
  · cases h
  · cases h
  · split at h
    all_goals try split at h
    all_goals try split at h
    all_goals
      first
      | (cases h <;> try rfl)
      | exact expPart_lang _ _ _ _ _ _ _ h

/-- inUndeterminedObject never touches the language tag. -/
theorem inUndeterminedObject_lang (r : Reader) (line : Bytes) (t t' : Triple) (rem : Bytes)
    (h : inUndeterminedObject r line t = .ok (rem, t')) : t'.LangTag = t.LangTag := by
  unfold inUndeterminedObject at h
  split at h
  · cases h
  · split at h
    · cases h
      rfl
    · split at h
      · cases h
        rfl
      · cases h
  · split at h
    · cases h
    · split at h
      · cases h
      · cases h
        rfl

end Tripn

namespace Tripn

/-- A triple with an empty language tag satisfies the invariant vacuously. -/
theorem PLang_of_nil (t : Triple) (h : t.LangTag = []) : PLang t := fun hx => absurd h hx

/-- readObject establishes the invariant on the produced triple and leaves
the sink untouched. -/
theorem readObject_plang (fuel : Nat) (r : Reader) (line0 : Bytes) (t : Triple)
    (dst : List Triple) (rem : Bytes) (t' : Triple) (r' : Reader) (dst' : List Triple)
    (h0 : t.LangTag = [])
    (h : readObject fuel r line0 t dst = .ok (rem, t', r', dst')) : PLang t' ∧ dst' = dst := by
  unfold readObject at h
  rw [Res.bind_ok_iff] at h
  obtain ⟨lr, h1, h2⟩ := h
  split at h2
  · cases h2
  · split at h2
    · rw [Res.bind_ok_iff] at h2
      obtain ⟨p, hp, he⟩ := h2
      cases he
      exact ⟨PLang_of_nil _ (by simpa using h0), rfl⟩
    · split at h2
      · rw [Res.bind_ok_iff] at h2
        obtain ⟨p, hp, he⟩ := h2
        cases he
        exact ⟨PLang_of_nil _ (by simpa using h0), rfl⟩
      · split at h2
        · rw [Res.bind_ok_iff] at h2
          obtain ⟨p, hp, he⟩ := h2
          cases he
          exact ⟨PLang_of_nil _ (by simpa using h0), rfl⟩
        · split at h2
          · rw [Res.bind_ok_iff] at h2
            obtain ⟨p, hp, he⟩ := h2
            simp [inCollection] at hp
          · split at h2
            · rw [Res.bind_ok_iff] at h2
              obtain ⟨p, hp, he⟩ := h2
              cases he
              exact ⟨inDoubleQuote_plang _ _ _ _ _ _ _ h0 hp, rfl⟩
            · split at h2
              · rw [Res.bind_ok_iff] at h2
                obtain ⟨p, hp, he⟩ := h2
                cases he
                exact ⟨inSingleQuote_plang _ _ _ _ _ _ _ h0 hp, rfl⟩
              · split at h2
                · rw [Res.bind_ok_iff] at h2
                  obtain ⟨p, hp, he⟩ := h2
                  cases he
                  refine ⟨PLang_of_nil _ ?_, rfl⟩
                  rw [inNumberWithSign_lang _ _ _ _ _ _ _ hp]
                  exact h0
                · split at h2
                  · rw [Res.bind_ok_iff] at h2
                    obtain ⟨p, hp, he⟩ := h2
                    cases he
                    refine ⟨PLang_of_nil _ ?_, rfl⟩
                    rw [inNumberWithSign_lang _ _ _ _ _ _ _ hp]
                    exact h0
                  · rw [Res.bind_ok_iff] at h2
                    obtain ⟨p, hp, he⟩ := h2
                    cases he
                    refine ⟨PLang_of_nil _ ?_, rfl⟩
                    rw [inUndeterminedObject_lang _ _ _ _ _ hp]
                    exact h0

/-- readSubjectLoop leaves the sink untouched. -/
theorem readSubjectLoop_dst (fuel : Nat) (r : Reader) (line : Bytes) (dst : List Triple)
    (s lrem : Bytes) (r' : Reader) (dst' : List Triple)
    (h : readSubjectLoop fuel r line dst = .ok (s, lrem, r', dst')) : dst' = dst := by
  revert h
  induction fuel generalizing r line s lrem r' dst' with
  | zero => intro h; simp [readSubjectLoop] at h
  | succ f ih =>
    intro h
    unfold readSubjectLoop at h
    split at h
    · cases h
    · split at h
      · rw [Res.bind_ok_iff] at h
        obtain ⟨d1, hd1, h⟩ := h
        rw [Res.bind_ok_iff] at h
        obtain ⟨d2, hd2, h⟩ := h
        exact ih _ _ _ _ _ _ h
      · split at h
        · rw [Res.bind_ok_iff] at h
          obtain ⟨p, hp, he⟩ := h
          cases he
          rfl
        · split at h
          · rw [Res.bind_ok_iff] at h
            obtain ⟨p, hp, he⟩ := h
            cases he
            rfl
          · split at h
            · rw [Res.bind_ok_iff] at h
              obtain ⟨p, hp, he⟩ := h
              simp [inCollection] at hp
            · split at h
              · rw [Res.bind_ok_iff] at h
                obtain ⟨p, hp, he⟩ := h
                cases he
                rfl
              · rw [Res.bind_ok_iff] at h
                obtain ⟨p, hp, h⟩ := h
                split at h
                · cases h
                  rfl
                · rw [Res.bind_ok_iff] at h
                  obtain ⟨q, hq, h⟩ := h
                  exact ih _ _ _ _ _ _ h

/-- readSubject leaves the sink untouched. -/
theorem readSubject_dst (fuel : Nat) (r : Reader) (dst : List Triple)
    (s lrem : Bytes) (r' : Reader) (dst' : List Triple)
    (h : readSubject fuel r dst = .ok (s, lrem, r', dst')) : dst' = dst := by
  unfold readSubject at h
  rw [Res.bind_ok_iff] at h
  obtain ⟨lr, h1, h2⟩ := h
  exact readSubjectLoop_dst _ _ _ _ _ _ _ _ h2

/-- Extending the base of a frame by one established triple. -/
theorem Frame_extend (dst : List Triple) (t : Triple) (x : RRes)
    (ht : PLang t) (h : Frame (dst ++ [t]) x) : Frame dst x := by
  cases x with
  | done out r' =>
    obtain ⟨ex, he, hp⟩ := h
    exact ⟨[t] ++ ex, by simp [he], by
      intro u hu
      rcases List.mem_append.mp hu with hu | hu
      · rw [List.mem_singleton.mp hu]; exact ht
      · exact hp u hu⟩
  | fail out e =>
    obtain ⟨ex, he, hp⟩ := h
    exact ⟨[t] ++ ex, by simp [he], by
      intro u hu
      rcases List.mem_append.mp hu with hu | hu
      · rw [List.mem_singleton.mp hu]; exact ht
      · exact hp u hu⟩
  | panicked m => trivial
  | outOfFuel => trivial

/-- The no-growth frame. -/
theorem Frame_self (dst : List Triple) (x : RRes)
    (h : (∃ r', x = .done dst r') ∨ (∃ e, x = .fail dst e)) : Frame dst x := by
  rcases h with ⟨r', rfl⟩ | ⟨e, rfl⟩ <;> exact ⟨[], by simp, by simp⟩

/-- The predicate-object loop of ReadAppend only appends, and appends only
invariant-satisfying triples. -/
theorem raLoop_frame : ∀ (fuel : Nat) (r : Reader) (dst : List Triple) (subj : Bytes)
    (pred : Option Bytes) (line : Bytes), Frame dst (raLoop fuel r dst subj pred line) := by
  intro fuel
  induction fuel with
  | zero => intro r dst subj pred line; trivial
  | succ f ih =>
    intro r dst subj pred line
    cases pred with
    | none =>
      show Frame dst (raLoop (f + 1) r dst subj none line)
      rw [raLoop]
      cases hp : readPredicate f r line with
      | ok v => exact ih _ _ _ _ _
      | err e => exact Frame_self _ _ (.inr ⟨e, rfl⟩)
      | panicked m => trivial
      | outOfFuel => trivial
    | some p =>
      show Frame dst (raLoop (f + 1) r dst subj (some p) line)
      rw [raLoop]
      split
      · exact Frame_self _ _ (.inr ⟨_, rfl⟩)
      · trivial
      · trivial
      next rem t2 r2 dst1 heq =>
        obtain ⟨hP, hdst⟩ := readObject_plang _ _ _ _ _ _ _ _ _ rfl heq
        subst hdst
        split
        · exact Frame_extend _ _ _ hP (Frame_self _ _ (.inr ⟨_, rfl⟩))
        · trivial
        · trivial
        · split
          · exact Frame_extend _ _ _ hP (Frame_self _ _ (.inl ⟨_, rfl⟩))
          · exact Frame_extend _ _ _ hP (ih _ _ _ _ _)
          · exact Frame_extend _ _ _ hP (ih _ _ _ _ _)
          · exact Frame_extend _ _ _ hP (Frame_self _ _ (.inr ⟨_, rfl⟩))


/-- ReadAppend preserves and extends the sink with invariant triples. -/
theorem readAppend_frame (fuel : Nat) (r : Reader) (dst : List Triple) :
    Frame dst (readAppend fuel r dst) := by
  unfold readAppend
  split
  next subj line r2 dst2 heq =>
    have hd := readSubject_dst _ _ _ _ _ _ _ heq
    subst hd
    exact raLoop_frame _ _ _ _ _ _
  · exact Frame_self _ _ (.inr ⟨_, rfl⟩)
  · trivial
  · trivial

/-- C10: whenever ReadAppend returns a slice — on success and on error
alike — that slice extends the dst it was called with: dst is a prefix and
nothing already present is modified, reordered or dropped. -/
theorem C10_readappend_append_only (fuel : Nat) (r : Reader) (dst out : List Triple)
    (h : outTriples (readAppend fuel r dst) = some out) : ∃ ex, out = dst ++ ex := by
  have hf := readAppend_frame fuel r dst
  cases hr : readAppend fuel r dst with
  | done d r' =>
    rw [hr] at hf h
    obtain ⟨ex, he, _⟩ := hf
    simp only [outTriples, Option.some.injEq] at h
    subst h
    exact ⟨ex, he⟩
  | fail d e =>
    rw [hr] at hf h
    obtain ⟨ex, he, _⟩ := hf
    simp only [outTriples, Option.some.injEq] at h
    subst h
    exact ⟨ex, he⟩
  | panicked m => rw [hr] at h; simp [outTriples] at h
  | outOfFuel => rw [hr] at h; simp [outTriples] at h

/-- C10 witness: a concrete one-statement read appends to an empty sink. -/
theorem C10_readappend_append_only_witness :
    ∃ ex, [(⟨bs "http://e/s", bs "http://e/p", bs "x", rdfLangString, bs "en"⟩ : Triple)] =
      ([] : List Triple) ++ ex :=
  C10_readappend_append_only 64 (mkReader (bs "<http://e/s> <http://e/p> \"x\"@en .\n")) []
    [⟨bs "http://e/s", bs "http://e/p", bs "x", rdfLangString, bs "en"⟩] (by decide)

/-- C8: every triple a ReadAppend call appends to the sink — on success and
on failure alike — has DatatypeIRI rdf:langString whenever its LangTag is
non-empty. -/
theorem C8_lang_tag_fixes_datatype (fuel : Nat) (r : Reader) (dst out : List Triple)
    (h : outTriples (readAppend fuel r dst) = some out) :
    ∀ t ∈ out.drop dst.length, t.LangTag ≠ [] → t.DatatypeIRI = rdfLangString := by
  have hf := readAppend_frame fuel r dst
  cases hr : readAppend fuel r dst with
  | done d r' =>
    rw [hr] at hf h
    obtain ⟨ex, he, hp⟩ := hf
    simp only [outTriples, Option.some.injEq] at h
    subst h
    subst he
    rw [List.drop_left]
    exact hp
  | fail d e =>
    rw [hr] at hf h
    obtain ⟨ex, he, hp⟩ := hf
    simp only [outTriples, Option.some.injEq] at h
    subst h
    subst he
    rw [List.drop_left]
    exact hp
  | panicked m => rw [hr] at h; simp [outTriples] at h
  | outOfFuel => rw [hr] at h; simp [outTriples] at h

/-- C8 witness: the language-tagged sample statement. -/
theorem C8_lang_tag_fixes_datatype_witness :
    (⟨bs "http://e/s", bs "http://e/p", bs "x", rdfLangString, bs "en"⟩ : Triple).DatatypeIRI =
      rdfLangString :=
  C8_lang_tag_fixes_datatype 64 (mkReader (bs "<http://e/s> <http://e/p> \"x\"@en .\n")) []
    [⟨bs "http://e/s", bs "http://e/p", bs "x", rdfLangString, bs "en"⟩] (by decide)
    ⟨bs "http://e/s", bs "http://e/p", bs "x", rdfLangString, bs "en"⟩ (by decide) (by decide)

end Tripn

namespace Tripn

/-- ASCII-only byte lists are valid UTF-8. -/
theorem utf8Valid_ascii : ∀ s : Bytes, (∀ c ∈ s, c < 128) → utf8Valid s = true := by
  intro s
  induction s with
  | nil => intro _; rfl
  | cons c cs ih =>
    intro h
    have hc := h c (List.mem_cons_self c cs)
    rw [utf8Valid.eq_def]
    simp only [hc, if_true]
    exact ih fun d hd => h d (List.mem_cons_of_mem c hd)

/-- A newline-free prefix puts the first newline at its length. -/
theorem findIdx_newline : ∀ s : Bytes, (∀ c ∈ s, ¬(c = 10)) →
    ∀ i, List.findIdx? (fun c => c = 10) (s ++ [10]) i = some (i + s.length) := by
  intro s
  induction s with
  | nil => intro _ i; simp
  | cons c cs ih =>
    intro h i
    have hc : ¬(c = 10) := h c (List.mem_cons_self c cs)
    simp only [List.cons_append, List.findIdx?_cons, decide_eq_true_eq, hc, if_false]
    rw [ih (fun d hd => h d (List.mem_cons_of_mem c hd)) (i + 1)]
    simp only [List.length_cons, Option.some.injEq]
    omega

/-- bufio ReadSlice on a single full line that fits the buffer. -/
theorem readSlice_line (s : Bytes) (h10 : ∀ c ∈ s, ¬(c = 10))
    (hlen : s.length < 4096) : readSlice (s ++ [10]) 4096 = (s ++ [10], [], .noErr) := by
  unfold readSlice
  rw [findIdx_newline s h10 0]
  simp only [Nat.zero_add]
  rw [if_pos hlen]
  have hl : (s ++ [10]).length = s.length + 1 := by simp
  rw [← hl, List.take_length, List.drop_length]


/-- The IRI scanner passes a run of safe bytes and stops at the closing
angle bracket. -/
theorem inIRIgo_app (r : Reader) :
    ∀ (s acc rest : Bytes), (∀ c ∈ s, iriByteOK c = true) →
      inIRIgo r acc (s ++ 62 :: rest) = inIRIgo r (acc ++ s) (62 :: rest) := by
  intro s
  induction s with
  | nil => intro acc rest _; simp
  | cons c s' ih =>
    intro acc rest h
    have hc := h c (List.mem_cons_self c s')
    simp only [iriByteOK, Bool.and_eq_true, decide_eq_true_eq] at hc
    obtain ⟨⟨⟨⟨⟨⟨⟨⟨⟨⟨⟨h33, h127⟩, h60⟩, h62⟩, h34⟩, h123⟩, h125⟩, h124⟩, h94⟩, h96⟩, h92⟩, h37⟩ := hc
    rw [List.cons_append, inIRIgo.eq_def]
    simp only [h60, h62, h34, h123, h125, h124, h94, h96, h92, if_false, decide_eq_true_eq]
    rw [if_neg (by omega : ¬ (c ≤ 32))]
    rw [ih (acc ++ [c]) rest fun d hd => h d (List.mem_cons_of_mem c hd)]
    simp


/-- An iriOK string yields a scheme-bearing URL. -/
theorem iriOK_urlParse (s : Bytes) (h : iriOK s = true) :
    ∃ u : URL, urlParse s = some u ∧ ¬(u.scheme = []) := by
  unfold iriOK at h
  rw [Bool.and_eq_true] at h
  obtain ⟨_, h2⟩ := h
  cases hu : urlParse s with
  | none => rw [hu] at h2; cases h2
  | some u =>
    rw [hu] at h2
    simp at h2
    exact ⟨u, rfl, by simpa using h2⟩

/-- Full behavior of the IRI recognizer on a rendered absolute IRI. -/
theorem inIRI_ok (r : Reader) (s rest : Bytes) (hok : iriOK s = true) :
    inIRI r (60 :: (s ++ 62 :: rest)) = .ok (s, rest) := by
  unfold inIRI
  have hall : ∀ c ∈ s, iriByteOK c = true := by
    have := (Bool.and_eq_true _ _).mp hok
    exact fun c hc => List.all_eq_true.mp this.1 c hc
  rw [List.drop_one, List.tail_cons, inIRIgo_app r s [] rest hall, inIRIgo.eq_def]
  obtain ⟨u, hu, hus⟩ := iriOK_urlParse s hok
  simp only [List.nil_append, hu, if_true]
  rw [if_neg hus]


/-- Safe literal bytes pass the Go quoting untouched. -/
theorem quoteEsc_lit (c : Nat) (h : litByteOK c = true) : quoteEsc c = [c] := by
  simp only [litByteOK, Bool.and_eq_true, decide_eq_true_eq] at h
  obtain ⟨⟨⟨h32, h127⟩, h34⟩, h92⟩ := h
  unfold quoteEsc
  rw [if_neg h34, if_neg h92, if_pos (by simp [h32, h127])]

/-- %q of a safe literal only adds the two quotes. -/
theorem goQuote_lit (s : Bytes) (h : ∀ c ∈ s, litByteOK c = true) :
    goQuote s = 34 :: (s ++ [34]) := by
  unfold goQuote
  have : s.flatMap quoteEsc = s := by
    induction s with
    | nil => rfl
    | cons c cs ih =>
      rw [List.flatMap_cons, quoteEsc_lit c (h c (List.mem_cons_self c cs)),
        ih fun d hd => h d (List.mem_cons_of_mem c hd)]
      rfl
  rw [this]
  rfl

/-- The short double-quote scanner passes safe bytes and stops at the
closing quote. -/
theorem shortScan34 (r : Reader) :
    ∀ (s acc rest : Bytes), (∀ c ∈ s, litByteOK c = true) →
      shortScan r 34 acc (s ++ 34 :: rest) = .ok (false, acc ++ s, rest) := by
  intro s
  induction s with
  | nil => intro acc rest _; simp [shortScan]
  | cons c s' ih =>
    intro acc rest h
    have hc := h c (List.mem_cons_self c s')
    simp only [litByteOK, Bool.and_eq_true, decide_eq_true_eq] at hc
    obtain ⟨⟨⟨h32, h127⟩, h34⟩, h92⟩ := hc
    have h13 : ¬(c = 13) := by omega
    have h10 : ¬(c = 10) := by omega
    rw [List.cons_append, shortScan.eq_def]
    simp only [h34, h92, h13, h10, if_false]
    rw [ih (acc ++ [c]) rest fun d hd => h d (List.mem_cons_of_mem c hd)]
    simp


/-- The language-tag scanner accepts exactly the mirrored tags, consuming
the closing space. -/
theorem langScan_ok (r : Reader) :
    ∀ (s acc rest : Bytes) (noDash subEmpty : Bool), langOKgo noDash subEmpty s = true →
      langScan r acc noDash subEmpty (s ++ 32 :: rest) = .ok (acc ++ s, rest) := by
  intro s
  induction s with
  | nil =>
    intro acc rest noDash subEmpty h
    simp only [langOKgo, Bool.not_eq_true'] at h
    subst h
    simp [langScan, isAlpha, isDigit, isWS]
  | cons c s' ih =>
    intro acc rest noDash subEmpty h
    simp only [langOKgo] at h
    simp only [List.cons_append, langScan]
    by_cases halpha : isAlpha c = true
    · simp only [halpha, if_true] at h ⊢
      simpa using ih (acc ++ [c]) rest noDash false h
    · simp only [halpha, if_false] at h ⊢
      by_cases hdig : isDigit c = true
      · simp only [hdig, if_true] at h ⊢
        cases noDash with
        | true => simp at h
        | false =>
          simp only [Bool.false_eq_true, if_false] at h ⊢
          simpa using ih (acc ++ [c]) rest false false h
      · simp only [hdig, if_false] at h ⊢
        by_cases h45 : c = 45
        · simp only [h45, if_true] at h ⊢
          cases subEmpty with
          | true => simp at h
          | false =>
            simp only [Bool.false_eq_true, if_false] at h ⊢
            have h2 := ih (acc ++ [45]) rest false true h
            rw [List.append_assoc] at h2
            exact h2
        · simp [h45] at h


/-- The datatype recognizer on a rendered caret-caret-IRI continuation. -/
theorem inDatatypeGo_dt (r : Reader) (t : Triple) (dt rest : Bytes) (hok : iriOK dt = true) :
    inDatatypeGo r (94 :: 94 :: 60 :: (dt ++ 62 :: rest)) t =
      .ok (rest, { t with DatatypeIRI := dt }) := by
  have hiri := inIRI_ok r dt rest hok
  have hlen3 : ¬((94 :: 94 :: 60 :: (dt ++ 62 :: rest)).length < 3) := by
    simp only [List.length_cons, List.length_append]
    omega
  have hlen4 : ¬((94 :: 94 :: 60 :: (dt ++ 62 :: rest)).length < 4) := by
    simp only [List.length_cons, List.length_append]
    omega
  unfold inDatatypeGo
  rw [if_neg (by
    intro hcc
    rw [Bool.and_eq_true] at hcc
    exact hlen3 (of_decide_eq_true hcc.1))]
  rw [if_neg (by simp)]
  rw [if_neg hlen4]
  rw [if_pos (by simp)]
  simp only [List.drop_succ_cons, List.drop_zero]
  rw [hiri]
  rfl


/-- afterQuotedLiteral on a whitespace continuation: xsd:string default. -/
theorem afterQuotedLiteral_ws (r : Reader) (t : Triple) (rest2 : Bytes) :
    afterQuotedLiteral r (32 :: rest2) t = .ok (rest2, { t with DatatypeIRI := XSDString }) := rfl

/-- afterQuotedLiteral on a rendered datatype continuation. -/
theorem afterQuotedLiteral_dt (r : Reader) (t : Triple) (dt rest2 : Bytes)
    (hok : iriOK dt = true) :
    afterQuotedLiteral r (94 :: 94 :: 60 :: (dt ++ 62 :: rest2)) t =
      .ok (rest2, { t with DatatypeIRI := dt }) := by
  exact inDatatypeGo_dt r t dt rest2 hok

/-- afterQuotedLiteral on a rendered language-tag continuation. -/
theorem afterQuotedLiteral_lang (r : Reader) (t : Triple) (lt rest2 : Bytes)
    (hok : langOK lt = true) :
    afterQuotedLiteral r (64 :: (lt ++ 32 :: rest2)) t =
      .ok (rest2, { t with DatatypeIRI := rdfLangString, LangTag := lt }) := by
  have hq : afterQuotedLiteral r (64 :: (lt ++ 32 :: rest2)) t =
      Res.bind (langScan r [] true true (lt ++ 32 :: rest2))
        (fun p => .ok (p.2, { t with DatatypeIRI := rdfLangString, LangTag := p.1 })) := rfl
  rw [hq, langScan_ok r lt [] rest2 true true hok]
  rfl


/-- inDoubleQuote on a rendered short literal of safe bytes, with the
continuation handled by afterQuotedLiteral. -/
theorem inDoubleQuote_lit (fuel : Nat) (r : Reader) (litO tail : Bytes) (t : Triple)
    (v : Bytes × Triple) (hO : ∀ c ∈ litO, litByteOK c = true)
    (h34 : ¬(tail.getD 0 0 = 34))
    (haql : afterQuotedLiteral r tail { t with Object := litO } = .ok v) :
    inDoubleQuote fuel r (34 :: (litO ++ 34 :: tail)) t = .ok (v.1, v.2, r) := by
  unfold inDoubleQuote
  rw [if_neg (by
    cases litO with
    | nil =>
      intro hcc
      simp only [Bool.and_eq_true, decide_eq_true_eq, List.getD_cons_succ,
        List.getD_cons_zero, List.nil_append] at hcc
      exact h34 hcc.2
    | cons c O' =>
      intro hcc
      have hc := hO c (List.mem_cons_self c O')
      simp only [litByteOK, Bool.and_eq_true, decide_eq_true_eq] at hc
      simp only [Bool.and_eq_true, decide_eq_true_eq, List.cons_append,
        List.getD_cons_succ, List.getD_cons_zero] at hcc
      exact hc.1.2 hcc.1.2)]
  have hss := shortScan34 r litO [] tail hO
  rw [List.nil_append] at hss
  show (match shortScan r 34 [] (litO ++ 34 :: tail) with
    | .ok (false, obj, rem) =>
      Res.bind (afterQuotedLiteral r rem { t with Object := obj }) fun p => .ok (p.1, p.2, r)
    | .ok (true, acc, lineBS) =>
      Res.bind (shortQuoteEscape fuel r 34 acc lineBS t) fun p => .ok (p.1, p.2, r)
    | .err e => .err e
    | .panicked m => .panicked m
    | .outOfFuel => .outOfFuel) = Res.ok (v.1, v.2, r)
  rw [hss]
  show Res.bind (afterQuotedLiteral r tail { t with Object := litO })
    (fun p => Res.ok (p.1, p.2, r)) = Res.ok (v.1, v.2, r)
  rw [haql]
  rfl


/-- Members of an iriOK string are in the safe byte class. -/
theorem iriOK_mem (s : Bytes) (h : iriOK s = true) : ∀ c ∈ s, iriByteOK c = true :=
  fun c hc => List.all_eq_true.mp ((Bool.and_eq_true _ _).mp h).1 c hc

/-- Safe IRI bytes are printable non-space ASCII. -/
theorem iriByteOK_range (c : Nat) (h : iriByteOK c = true) : 33 ≤ c ∧ c < 127 := by
  simp only [iriByteOK, Bool.and_eq_true, decide_eq_true_eq] at h
  omega

/-- Safe literal bytes are printable ASCII. -/
theorem litByteOK_range (c : Nat) (h : litByteOK c = true) : 32 ≤ c ∧ c < 127 := by
  simp only [litByteOK, Bool.and_eq_true, decide_eq_true_eq] at h
  omega

/-- Bytes of an accepted language tag are letters, digits or dashes. -/
theorem langOKgo_mem : ∀ (s : Bytes) (nd se : Bool), langOKgo nd se s = true →
    ∀ c ∈ s, 45 ≤ c ∧ c < 123 := by
  intro s
  induction s with
  | nil =>
    intro nd se _ c hc
    simp at hc
  | cons a as ih =>
    intro nd se h c hc
    simp only [langOKgo] at h
    by_cases ha : isAlpha a = true
    · rw [if_pos ha] at h
      rcases List.mem_cons.mp hc with rfl | hc2
      · simp only [isAlpha, Bool.or_eq_true, Bool.and_eq_true, decide_eq_true_eq] at ha
        omega
      · exact ih nd false h c hc2
    · rw [if_neg ha] at h
      by_cases hd : isDigit a = true
      · rw [if_pos hd] at h
        by_cases hnd : nd = true
        · rw [if_pos hnd] at h
          exact absurd h (by simp)
        · rw [if_neg hnd] at h
          rcases List.mem_cons.mp hc with rfl | hc2
          · simp only [isDigit, Bool.and_eq_true, decide_eq_true_eq] at hd
            omega
          · exact ih nd false h c hc2
      · rw [if_neg hd] at h
        by_cases h45 : a = 45
        · rw [if_pos h45] at h
          by_cases hse : se = true
          · rw [if_pos hse] at h
            exact absurd h (by simp)
          · rw [if_neg hse] at h
            rcases List.mem_cons.mp hc with rfl | hc2
            · omega
            · exact ih false true h c hc2
        · rw [if_neg h45] at h
          exact absurd h (by simp)

/-- A well-formed IRI is nonempty. -/
theorem iriOK_ne_nil (s : Bytes) (h : iriOK s = true) : ¬(s = []) := by
  intro hnil
  subst hnil
  revert h
  decide

/-- The line loop on a fresh Reader over a single full line: yields the
line and the drained Reader. -/
theorem lineF_fresh (f : Nat) (body : Bytes) (hlead : lead body = body)
    (hne : ¬(body = []))
    (hrs : readSlice body 4096 = (body, [], .noErr))
    (hu : utf8Valid body = true) :
    lineF (f + 2) (mkReader body) [] = .ok (body, rdr1) := by
  simp only [lineF, mkReader]
  simp [hrs, hu, hlead, hne, rdr1, lead]

/-- readSubject on a fresh Reader holding one IRI-led line. -/
theorem readSubject_iri (f : Nat) (S rest : Bytes) (hS : iriOK S = true)
    (hrs : readSlice (60 :: (S ++ 62 :: rest)) 4096 = (60 :: (S ++ 62 :: rest), [], .noErr))
    (hu : utf8Valid (60 :: (S ++ 62 :: rest)) = true) :
    readSubject (f + 2) (mkReader (60 :: (S ++ 62 :: rest))) [] = .ok (S, rest, rdr1, []) := by
  have hl := lineF_fresh f (60 :: (S ++ 62 :: rest)) rfl (by simp) hrs hu
  unfold readSubject Reader.line
  rw [show (mkReader (60 :: (S ++ 62 :: rest))).pending = [] from rfl]
  rw [hl]
  show readSubjectLoop (f + 2) rdr1 (60 :: (S ++ 62 :: rest)) [] = _
  have hiri := inIRI_ok rdr1 S rest hS
  simp only [readSubjectLoop]
  simp [hiri, Res.bind]

/-- readPredicate on a space then an angle-bracketed IRI. -/
theorem readPredicate_iri (f : Nat) (r : Reader) (P rest : Bytes) (hP : iriOK P = true) :
    readPredicate f r (32 :: 60 :: (P ++ 62 :: rest)) = .ok (P, rest, r) := by
  have hlc : lineContinue f r (32 :: 60 :: (P ++ 62 :: rest)) =
      .ok (60 :: (P ++ 62 :: rest), r) := rfl
  unfold readPredicate
  rw [hlc]
  show Res.bind (inIRI r (60 :: (P ++ 62 :: rest))) _ = _
  rw [inIRI_ok r P rest hP]
  rfl

/-- readObject on a space then an angle-bracketed IRI object. -/
theorem readObject_iri (f : Nat) (r : Reader) (O rest : Bytes) (t : Triple)
    (dst : List Triple) (hO : iriOK O = true) :
    readObject f r (32 :: 60 :: (O ++ 62 :: rest)) t dst =
      .ok (rest, { t with Object := O }, r, dst) := by
  have hlc : lineContinue f r (32 :: 60 :: (O ++ 62 :: rest)) =
      .ok (60 :: (O ++ 62 :: rest), r) := rfl
  unfold readObject
  rw [hlc]
  show Res.bind (inIRI r (60 :: (O ++ 62 :: rest))) _ = _
  rw [inIRI_ok r O rest hO]
  rfl

/-- readObject on a space then a short double-quoted literal of safe
bytes, with its continuation resolved by afterQuotedLiteral. -/
theorem readObject_dq (f : Nat) (r : Reader) (litO tail : Bytes) (t : Triple)
    (dst : List Triple) (v : Bytes × Triple)
    (hO : ∀ c ∈ litO, litByteOK c = true) (h34 : ¬(tail.getD 0 0 = 34))
    (haql : afterQuotedLiteral r tail { t with Object := litO } = .ok v) :
    readObject f r (32 :: 34 :: (litO ++ 34 :: tail)) t dst = .ok (v.1, v.2, r, dst) := by
  have hlc : lineContinue f r (32 :: 34 :: (litO ++ 34 :: tail)) =
      .ok (34 :: (litO ++ 34 :: tail), r) := rfl
  unfold readObject
  rw [hlc]
  show Res.bind (inDoubleQuote f r (34 :: (litO ++ 34 :: tail)) t) _ = _
  rw [inDoubleQuote_lit f r litO tail t v hO h34 haql]
  rfl

/-- One predicate-object run of the ReadAppend loop ending at the dot
terminator. -/
theorem raLoop_one (f : Nat) (rA rA2 rB rC : Reader) (dst dst1 : List Triple)
    (S P line rem rem2 rest3 : Bytes) (t : Triple)
    (hpred : readPredicate (f + 1) rA line = .ok (P, rem, rA2))
    (hobj : readObject f rA2 rem ⟨S, P, [], [], []⟩ dst = .ok (rem2, t, rB, dst1))
    (hlc : lineContinue f rB rem2 = .ok (46 :: rest3, rC)) :
    raLoop (f + 2) rA dst S none line = .done (dst1 ++ [t]) { rC with pending := rest3 } := by
  simp only [raLoop, hpred, hobj, hlc]

/-- ReadAppend at the clean end of the stream: pending new-line only and
a drained buffer surface io.EOF. -/
theorem readAppend_eofR (f : Nat) (r : Reader) (dst : List Triple)
    (hpend : r.pending = [10]) (hin : r.input = []) (hcap : r.bufCap = 4096) :
    readAppend (f + 1) r dst = .fail dst .eof := by
  have l2 : readSlice [] 4096 = ([], [], .eofE) := rfl
  have hline : lineF (f + 1) r [10] = .err .eof := by
    simp only [lineF, hin, hcap, l2]
    simp [lead]
  simp only [readAppend, readSubject, Reader.line, hpend, hline, Res.bind]

/-- The stream loop steps over a successful ReadAppend. -/
theorem readAll_done (f : Nat) (r r2 : Reader) (dst dst2 : List Triple)
    (h : readAppend f r dst = .done dst2 r2) :
    readAll (f + 1) r dst = readAll f r2 dst2 := by
  simp only [readAll, h]

/-- The stream loop stops cleanly on io.EOF. -/
theorem readAll_eos (f : Nat) (r : Reader) (dst : List Triple)
    (h : readAppend f r dst = .fail dst .eof) :
    readAll (f + 1) r dst = (dst, .eos) := by
  simp only [readAll, h]

/-- The shared round-trip pipeline: subject and predicate IRIs, a
case-specific object stage, the dot terminator, then clean EOF. -/
theorem roundtrip_core (S P rest2 rem2 : Bytes) (t : Triple)
    (hs : iriOK S = true) (hp : iriOK P = true)
    (hobj : readObject 13 rdr1 rest2 ⟨S, P, [], [], []⟩ [] = .ok (rem2, t, rdr1, []))
    (hlc46 : lineContinue 13 rdr1 rem2 = .ok (46 :: [10], rdr1))
    (hrs : readSlice (60 :: (S ++ 62 :: 32 :: 60 :: (P ++ 62 :: rest2))) 4096 =
      (60 :: (S ++ 62 :: 32 :: 60 :: (P ++ 62 :: rest2)), [], .noErr))
    (hu : utf8Valid (60 :: (S ++ 62 :: 32 :: 60 :: (P ++ 62 :: rest2))) = true) :
    readAll 16 (mkReader (60 :: (S ++ 62 :: 32 :: 60 :: (P ++ 62 :: rest2)))) [] =
      ([t], .eos) := by
  have hsub : readSubject 15 (mkReader (60 :: (S ++ 62 :: 32 :: 60 :: (P ++ 62 :: rest2)))) [] =
      .ok (S, 32 :: 60 :: (P ++ 62 :: rest2), rdr1, []) :=
    readSubject_iri 13 S (32 :: 60 :: (P ++ 62 :: rest2)) hs hrs hu
  have hpred : readPredicate 14 rdr1 (32 :: 60 :: (P ++ 62 :: rest2)) = .ok (P, rest2, rdr1) :=
    readPredicate_iri 14 rdr1 P rest2 hp
  have hra : raLoop 15 rdr1 [] S none (32 :: 60 :: (P ++ 62 :: rest2)) = .done [t] rdr2 :=
    raLoop_one 13 rdr1 rdr1 rdr1 rdr1 [] [] S P (32 :: 60 :: (P ++ 62 :: rest2)) rest2 rem2
      [10] t hpred hobj hlc46
  have hA : readAppend 15 (mkReader (60 :: (S ++ 62 :: 32 :: 60 :: (P ++ 62 :: rest2)))) [] =
      .done [t] rdr2 := by
    simp only [readAppend, hsub]
    exact hra
  have hB : readAppend 14 rdr2 [t] = .fail [t] .eof := readAppend_eofR 13 rdr2 [t] rfl rfl rfl
  exact (readAll_done 15 _ _ _ _ hA).trans (readAll_eos 14 _ _ hB)


/-- Round trip of an all-IRI triple. -/
theorem roundtripA (S P O : Bytes)
    (hs : iriOK S = true) (hp : iriOK P = true) (ho : iriOK O = true)
    (hlen : (Triple.render ⟨S, P, O, [], []⟩).length < 4096) :
    readAll 16 (mkReader (Triple.render ⟨S, P, O, [], []⟩ ++ [10])) [] =
      ([⟨S, P, O, [], []⟩], .eos) := by
  have hb1 : bs "<" = [60] := by decide
  have hb2 : bs "> <" = [62, 32, 60] := by decide
  have hb3 : bs "> ." = [62, 32, 46] := by decide
  have hren : Triple.render ⟨S, P, O, [], []⟩ =
      60 :: (S ++ 62 :: 32 :: 60 :: (P ++ 62 :: 32 :: 60 :: (O ++ [62, 32, 46]))) := by
    simp [Triple.render, hb1, hb2, hb3]
  have hmem : ∀ c ∈ Triple.render ⟨S, P, O, [], []⟩, ¬(c = 10) ∧ c < 128 := by
    rw [hren]
    intro c hc
    simp at hc
    rcases hc with rfl | hc | rfl | rfl | rfl | hc | rfl | rfl | rfl | hc | rfl | rfl | rfl
    · exact ⟨by decide, by decide⟩
    · have h2 := iriByteOK_range c (iriOK_mem S hs c hc)
      exact ⟨by omega, by omega⟩
    · exact ⟨by decide, by decide⟩
    · exact ⟨by decide, by decide⟩
    · exact ⟨by decide, by decide⟩
    · have h2 := iriByteOK_range c (iriOK_mem P hp c hc)
      exact ⟨by omega, by omega⟩
    · exact ⟨by decide, by decide⟩
    · exact ⟨by decide, by decide⟩
    · exact ⟨by decide, by decide⟩
    · have h2 := iriByteOK_range c (iriOK_mem O ho c hc)
      exact ⟨by omega, by omega⟩
    · exact ⟨by decide, by decide⟩
    · exact ⟨by decide, by decide⟩
    · exact ⟨by decide, by decide⟩
  have hWr : Triple.render ⟨S, P, O, [], []⟩ ++ [10] =
      60 :: (S ++ 62 :: 32 :: 60 :: (P ++ 62 :: 32 :: 60 :: (O ++ 62 :: 32 :: 46 :: [10]))) := by
    rw [hren]
    simp only [List.cons_append, List.append_assoc, List.nil_append]
  have hrs := readSlice_line (Triple.render ⟨S, P, O, [], []⟩)
    (fun c hc => (hmem c hc).1) hlen
  rw [hWr] at hrs
  have hu : utf8Valid
      (60 :: (S ++ 62 :: 32 :: 60 :: (P ++ 62 :: 32 :: 60 :: (O ++ 62 :: 32 :: 46 :: [10])))) =
      true := by
    apply utf8Valid_ascii
    intro c hc
    rw [← hWr] at hc
    rcases List.mem_append.mp hc with h | h
    · exact (hmem c h).2
    · simp at h
      omega
  rw [hWr]
  have hobj : readObject 13 rdr1 (32 :: 60 :: (O ++ 62 :: 32 :: 46 :: [10]))
      ⟨S, P, [], [], []⟩ [] =
      .ok (32 :: 46 :: [10], ⟨S, P, O, [], []⟩, rdr1, []) :=
    readObject_iri 13 rdr1 O (32 :: 46 :: [10]) ⟨S, P, [], [], []⟩ [] ho
  exact roundtrip_core S P (32 :: 60 :: (O ++ 62 :: 32 :: 46 :: [10])) (32 :: 46 :: [10])
    ⟨S, P, O, [], []⟩ hs hp hobj rfl hrs hu


/-- Round trip of a datatyped-literal triple. -/
theorem roundtripB (S P O D : Bytes)
    (hs : iriOK S = true) (hp : iriOK P = true)
    (ho : ∀ c ∈ O, litByteOK c = true) (hd : iriOK D = true)
    (hlen : (Triple.render ⟨S, P, O, D, []⟩).length < 4096) :
    readAll 16 (mkReader (Triple.render ⟨S, P, O, D, []⟩ ++ [10])) [] =
      ([⟨S, P, O, D, []⟩], .eos) := by
  have hb1 : bs "<" = [60] := by decide
  have hb2 : bs "> <" = [62, 32, 60] := by decide
  have hb3 : bs "> ." = [62, 32, 46] := by decide
  have hb4 : bs "> " = [62, 32] := by decide
  have hb5 : bs "^^<" = [94, 94, 60] := by decide
  have hDne := iriOK_ne_nil D hd
  have hgq := goQuote_lit O ho
  have hren : Triple.render ⟨S, P, O, D, []⟩ =
      60 :: (S ++ 62 :: 32 :: 60 :: (P ++ 62 :: 32 :: 34 ::
        (O ++ 34 :: 94 :: 94 :: 60 :: (D ++ [62, 32, 46])))) := by
    simp [Triple.render, hDne, hgq, hb1, hb2, hb3, hb4, hb5]
  have hmem : ∀ c ∈ Triple.render ⟨S, P, O, D, []⟩, ¬(c = 10) ∧ c < 128 := by
    rw [hren]
    intro c hc
    simp at hc
    rcases hc with rfl | hc | rfl | rfl | rfl | hc | rfl | rfl | rfl | hc |
      rfl | rfl | rfl | hc | rfl | rfl | rfl
    · exact ⟨by decide, by decide⟩
    · have h2 := iriByteOK_range c (iriOK_mem S hs c hc)
      exact ⟨by omega, by omega⟩
    · exact ⟨by decide, by decide⟩
    · exact ⟨by decide, by decide⟩
    · exact ⟨by decide, by decide⟩
    · have h2 := iriByteOK_range c (iriOK_mem P hp c hc)
      exact ⟨by omega, by omega⟩
    · exact ⟨by decide, by decide⟩
    · exact ⟨by decide, by decide⟩
    · exact ⟨by decide, by decide⟩
    · have h2 := litByteOK_range c (ho c hc)
      exact ⟨by omega, by omega⟩
    · exact ⟨by decide, by decide⟩
    · exact ⟨by decide, by decide⟩
    · exact ⟨by decide, by decide⟩
    · have h2 := iriByteOK_range c (iriOK_mem D hd c hc)
      exact ⟨by omega, by omega⟩
    · exact ⟨by decide, by decide⟩
    · exact ⟨by decide, by decide⟩
    · exact ⟨by decide, by decide⟩
  have hWr : Triple.render ⟨S, P, O, D, []⟩ ++ [10] =
      60 :: (S ++ 62 :: 32 :: 60 :: (P ++ 62 :: 32 :: 34 ::
        (O ++ 34 :: 94 :: 94 :: 60 :: (D ++ 62 :: 32 :: 46 :: [10])))) := by
    rw [hren]
    simp only [List.cons_append, List.append_assoc, List.nil_append]
  have hrs := readSlice_line (Triple.render ⟨S, P, O, D, []⟩)
    (fun c hc => (hmem c hc).1) hlen
  rw [hWr] at hrs
  have hu : utf8Valid
      (60 :: (S ++ 62 :: 32 :: 60 :: (P ++ 62 :: 32 :: 34 ::
        (O ++ 34 :: 94 :: 94 :: 60 :: (D ++ 62 :: 32 :: 46 :: [10]))))) = true := by
    apply utf8Valid_ascii
    intro c hc
    rw [← hWr] at hc
    rcases List.mem_append.mp hc with h | h
    · exact (hmem c h).2
    · simp at h
      omega
  rw [hWr]
  have haql : afterQuotedLiteral rdr1 (94 :: 94 :: 60 :: (D ++ 62 :: 32 :: 46 :: [10]))
      { (⟨S, P, [], [], []⟩ : Triple) with Object := O } =
      .ok (32 :: 46 :: [10], ⟨S, P, O, D, []⟩) :=
    afterQuotedLiteral_dt rdr1 _ D (32 :: 46 :: [10]) hd
  have hobj : readObject 13 rdr1
      (32 :: 34 :: (O ++ 34 :: 94 :: 94 :: 60 :: (D ++ 62 :: 32 :: 46 :: [10])))
      ⟨S, P, [], [], []⟩ [] =
      .ok (32 :: 46 :: [10], ⟨S, P, O, D, []⟩, rdr1, []) :=
    readObject_dq 13 rdr1 O (94 :: 94 :: 60 :: (D ++ 62 :: 32 :: 46 :: [10]))
      ⟨S, P, [], [], []⟩ [] (32 :: 46 :: [10], ⟨S, P, O, D, []⟩) ho (by simp) haql
  exact roundtrip_core S P
    (32 :: 34 :: (O ++ 34 :: 94 :: 94 :: 60 :: (D ++ 62 :: 32 :: 46 :: [10])))
    (32 :: 46 :: [10]) ⟨S, P, O, D, []⟩ hs hp hobj rfl hrs hu

/-- Round trip of a language-tagged-literal triple. -/
theorem roundtripC (S P O L : Bytes)
    (hs : iriOK S = true) (hp : iriOK P = true)
    (ho : ∀ c ∈ O, litByteOK c = true) (hl : langOK L = true) (hLne : ¬(L = [])) :
    (Triple.render ⟨S, P, O, rdfLangString, L⟩).length < 4096 →
    readAll 16 (mkReader (Triple.render ⟨S, P, O, rdfLangString, L⟩ ++ [10])) [] =
      ([⟨S, P, O, rdfLangString, L⟩], .eos) := by
  intro hlen
  have hb1 : bs "<" = [60] := by decide
  have hb2 : bs "> <" = [62, 32, 60] := by decide
  have hb4 : bs "> " = [62, 32] := by decide
  have hb6 : bs "@" = [64] := by decide
  have hb7 : bs " ." = [32, 46] := by decide
  have hDne : ¬(rdfLangString = []) := by decide
  have hgq := goQuote_lit O ho
  have hren : Triple.render ⟨S, P, O, rdfLangString, L⟩ =
      60 :: (S ++ 62 :: 32 :: 60 :: (P ++ 62 :: 32 :: 34 ::
        (O ++ 34 :: 64 :: (L ++ [32, 46])))) := by
    simp [Triple.render, hDne, hLne, hgq, hb1, hb2, hb4, hb6, hb7]
  have hmem : ∀ c ∈ Triple.render ⟨S, P, O, rdfLangString, L⟩, ¬(c = 10) ∧ c < 128 := by
    rw [hren]
    intro c hc
    simp at hc
    rcases hc with rfl | hc | rfl | rfl | rfl | hc | rfl | rfl | rfl | hc |
      rfl | rfl | hc | rfl | rfl
    · exact ⟨by decide, by decide⟩
    · have h2 := iriByteOK_range c (iriOK_mem S hs c hc)
      exact ⟨by omega, by omega⟩
    · exact ⟨by decide, by decide⟩
    · exact ⟨by decide, by decide⟩
    · exact ⟨by decide, by decide⟩
    · have h2 := iriByteOK_range c (iriOK_mem P hp c hc)
      exact ⟨by omega, by omega⟩
    · exact ⟨by decide, by decide⟩
    · exact ⟨by decide, by decide⟩
    · exact ⟨by decide, by decide⟩
    · have h2 := litByteOK_range c (ho c hc)
      exact ⟨by omega, by omega⟩
    · exact ⟨by decide, by decide⟩
    · exact ⟨by decide, by decide⟩
    · have h2 := langOKgo_mem L true true hl c hc
      exact ⟨by omega, by omega⟩
    · exact ⟨by decide, by decide⟩
    · exact ⟨by decide, by decide⟩
  have hWr : Triple.render ⟨S, P, O, rdfLangString, L⟩ ++ [10] =
      60 :: (S ++ 62 :: 32 :: 60 :: (P ++ 62 :: 32 :: 34 ::
        (O ++ 34 :: 64 :: (L ++ 32 :: 46 :: [10])))) := by
    rw [hren]
    simp only [List.cons_append, List.append_assoc, List.nil_append]
  have hrs := readSlice_line (Triple.render ⟨S, P, O, rdfLangString, L⟩)
    (fun c hc => (hmem c hc).1) hlen
  rw [hWr] at hrs
  have hu : utf8Valid
      (60 :: (S ++ 62 :: 32 :: 60 :: (P ++ 62 :: 32 :: 34 ::
        (O ++ 34 :: 64 :: (L ++ 32 :: 46 :: [10]))))) = true := by
    apply utf8Valid_ascii
    intro c hc
    rw [← hWr] at hc
    rcases List.mem_append.mp hc with h | h
    · exact (hmem c h).2
    · simp at h
      omega
  rw [hWr]
  have haql : afterQuotedLiteral rdr1 (64 :: (L ++ 32 :: 46 :: [10]))
      { (⟨S, P, [], [], []⟩ : Triple) with Object := O } =
      .ok (46 :: [10], ⟨S, P, O, rdfLangString, L⟩) :=
    afterQuotedLiteral_lang rdr1 _ L (46 :: [10]) hl
  have hobj : readObject 13 rdr1
      (32 :: 34 :: (O ++ 34 :: 64 :: (L ++ 32 :: 46 :: [10])))
      ⟨S, P, [], [], []⟩ [] =
      .ok (46 :: [10], ⟨S, P, O, rdfLangString, L⟩, rdr1, []) :=
    readObject_dq 13 rdr1 O (64 :: (L ++ 32 :: 46 :: [10]))
      ⟨S, P, [], [], []⟩ [] (46 :: [10], ⟨S, P, O, rdfLangString, L⟩) ho (by simp) haql
  exact roundtrip_core S P
    (32 :: 34 :: (O ++ 34 :: 64 :: (L ++ 32 :: 46 :: [10])))
    (46 :: [10]) ⟨S, P, O, rdfLangString, L⟩ hs hp hobj rfl hrs hu


/-- C9: the round-trip claim is false as stated: a triple whose subject
IRI holds a space renders to a line the parser rejects, although its
object is no skolem node.  The parse of the rendering yields no triple at
all, but a syntax error. -/
theorem C9_render_not_reparsed :
    List.isPrefixOf skolemIRIRoot
      ((⟨bs "a b", bs "http://e/p", bs "http://e/o", [], []⟩ : Triple).Object) = false ∧
    readAll 16
      (mkReader (Triple.render ⟨bs "a b", bs "http://e/p", bs "http://e/o", [], []⟩ ++ [10]))
      [] = ([], .failed (.syn 1 "control character in IRI reference")) := by
  constructor
  · decide
  · decide

/-- C9 (amended): for every triple t whose subject and predicate are
well-formed absolute IRIs of safe bytes, whose object is such an IRI when
no datatype is set and otherwise a literal of printable ASCII without
quote or backslash under a well-formed datatype IRI, whose language tag
(if any) is a well-formed tag paired with the rdf:langString datatype, and
whose rendering fits the 4 KiB line buffer, feeding the N-Triples
rendering of t plus a new-line into a fresh Reader yields exactly the one
triple t and a clean end of stream. -/
theorem C9_wellformed_roundtrip (t : Triple)
    (hs : iriOK t.SubjectIRI = true) (hp : iriOK t.PredicateIRI = true)
    (hobj : if t.DatatypeIRI = [] then iriOK t.Object = true
            else ∀ c ∈ t.Object, litByteOK c = true)
    (hdt : t.LangTag = [] → ¬(t.DatatypeIRI = []) → iriOK t.DatatypeIRI = true)
    (hlang : ¬(t.LangTag = []) → langOK t.LangTag = true ∧ t.DatatypeIRI = rdfLangString)
    (hlen : (Triple.render t).length < 4096) :
    readAll 16 (mkReader (Triple.render t ++ [10])) [] = ([t], .eos) := by
  obtain ⟨S, P, O, D, L⟩ := t
  dsimp only at hs hp hobj hdt hlang hlen ⊢
  by_cases hL : L = []
  · subst hL
    by_cases hD : D = []
    · subst hD
      rw [if_pos rfl] at hobj
      exact roundtripA S P O hs hp hobj hlen
    · rw [if_neg hD] at hobj
      exact roundtripB S P O D hs hp hobj (hdt rfl hD) hlen
  · obtain ⟨hl, hDeq⟩ := hlang hL
    subst hDeq
    rw [if_neg (by decide)] at hobj
    exact roundtripC S P O L hs hp hobj hl hL hlen

/-- C9 amended witness: a concrete xsd:string literal triple round-trips. -/
theorem C9_wellformed_roundtrip_witness :
    readAll 16
      (mkReader (Triple.render ⟨bs "http://e/s", bs "http://e/p", bs "hi", XSDString, []⟩ ++ [10]))
      [] = ([⟨bs "http://e/s", bs "http://e/p", bs "hi", XSDString, []⟩], .eos) := by
  apply C9_wellformed_roundtrip
  · decide
  · decide
  · show ∀ c ∈ bs "hi", litByteOK c = true
    decide
  · intro _ _
    decide
  · intro h
    exact absurd rfl h
  · decide

end Tripn
